import Mathlib

/-!
Verification of the CircuitSense grid-circuit generator
(`ppm_construction/data_syn/grid_rules.py` and
`ppm_construction/data_syn/generate.py`).

The Python source works on parallel `numpy` arrays indexed by grid
position; we embed a grid sample as a structure of total functions over
`Nat × Nat` (only in-bounds indices are ever consulted, mirroring the
array accesses).  Random draws (`np.random.choice`, `random.choice`,
`np.random.randint`) are threaded through as explicit oracle parameters,
so every theorem quantifies over all possible random outcomes.
-/

/-! ### Component-type and measurement enumerations (grid_rules.py lines 9-42) -/

def TYPE_SHORT : Nat := 0
def TYPE_VOLTAGE_SOURCE : Nat := 1
def TYPE_CURRENT_SOURCE : Nat := 2
def TYPE_RESISTOR : Nat := 3
def TYPE_CAPACITOR : Nat := 4
def TYPE_INDUCTOR : Nat := 5
def TYPE_OPEN : Nat := 6
def TYPE_VCCS : Nat := 7
def TYPE_VCVS : Nat := 8
def TYPE_CCCS : Nat := 9
def TYPE_CCVS : Nat := 10
def TYPE_OPAMP_INVERTING : Nat := 11
def TYPE_OPAMP_NONINVERTING : Nat := 12
def TYPE_OPAMP_BUFFER : Nat := 13
def TYPE_OPAMP_INTEGRATOR : Nat := 14
def TYPE_OPAMP_DIFFERENTIATOR : Nat := 15
def TYPE_OPAMP_SUMMING : Nat := 16
def TYPE_BJT_SMALL_SIGNAL : Nat := 17
def TYPE_MOSFET_SMALL_SIGNAL : Nat := 18

def MEAS_TYPE_NONE : Nat := 0
def MEAS_TYPE_VOLTAGE : Nat := 1
def MEAS_TYPE_CURRENT : Nat := 2

/-- The four dependent-source component types (VCCS/VCVS/CCCS/CCVS). -/
def depSourceTypes : List Nat := [TYPE_VCCS, TYPE_VCVS, TYPE_CCCS, TYPE_CCVS]

/-! ### The grid sample (the parallel arrays handed to `Circuit.__init__`) -/

/-- A grid sample: `m × n` junctions, `(m-1) × n` vertical edges and
`m × (n-1)` horizontal edges, each edge carrying the per-edge arrays of
`Circuit.__init__` (`has_?edge`, `?comp_type`, `?comp_label`, …).
Array reads out of bounds never happen in the source; the functions are
total only for convenience of the embedding. -/
structure Grid where
  m : Nat
  n : Nat
  hasV : Nat → Nat → Bool
  hasH : Nat → Nat → Bool
  vtype : Nat → Nat → Nat
  htype : Nat → Nat → Nat
  vlabel : Nat → Nat → Int
  hlabel : Nat → Nat → Int
  vvalue : Nat → Nat → Int
  hvalue : Nat → Nat → Int
  vunit : Nat → Nat → Nat
  hunit : Nat → Nat → Nat
  vdir : Nat → Nat → Bool
  hdir : Nat → Nat → Bool
  vmeas : Nat → Nat → Nat
  hmeas : Nat → Nat → Nat
  vmeasLabel : Nat → Nat → Int
  hmeasLabel : Nat → Nat → Int
  vmeasDir : Nat → Nat → Bool
  hmeasDir : Nat → Nat → Bool
  vctrl : Nat → Nat → Int
  hctrl : Nat → Nat → Int

/-- Row-major list of index pairs `(i, j)` with `i < a`, `j < b`:
the iteration order of the nested `for i in range(a): for j in range(b)`
loops used throughout the source. -/
def idxList (a b : Nat) : List (Nat × Nat) :=
  (List.range a).flatMap (fun i => (List.range b).map (fun j => (i, j)))

theorem mem_idxList {a b : Nat} {p : Nat × Nat} :
    p ∈ idxList a b ↔ p.1 < a ∧ p.2 < b := by
  unfold idxList
  simp only [List.mem_flatMap, List.mem_map, List.mem_range]
  constructor
  · rintro ⟨i, hi, j, hj, rfl⟩; exact ⟨hi, hj⟩
  · rintro ⟨h1, h2⟩; exact ⟨p.1, h1, p.2, h2, rfl⟩

theorem nodup_idxList (a b : Nat) : (idxList a b).Nodup := by
  unfold idxList
  induction a with
  | zero => simp
  | succ a ih =>
      rw [List.range_succ, List.flatMap_append]
      refine List.Nodup.append ih ?_ ?_
      · simp only [List.flatMap_cons, List.flatMap_nil, List.append_nil]
        exact (List.nodup_range b).map (fun x y h => by simpa using congrArg Prod.snd h)
      · intro p hp hp'
        simp only [List.flatMap_cons, List.flatMap_nil, List.append_nil, List.mem_map,
          List.mem_range] at hp'
        obtain ⟨j, _, rfl⟩ := hp'
        have := (mem_idxList (a := a) (b := b)).1 hp
        exact absurd this.1 (by simp)

/-- The junctions of the grid in row-major scan order. -/
def Grid.cells (g : Grid) : List (Nat × Nat) := idxList g.m g.n

/-- Vertical-edge index pairs in row-major scan order (`range(m-1) × range(n)`). -/
def Grid.vCells (g : Grid) : List (Nat × Nat) := idxList (g.m - 1) g.n

/-- Horizontal-edge index pairs in row-major scan order (`range(m) × range(n-1)`). -/
def Grid.hCells (g : Grid) : List (Nat × Nat) := idxList g.m (g.n - 1)

/-! ### Junction degree (`Circuit._init_degree`, lines 1292-1306)

`degree[i][j]` counts the incident present edges whose component type is
not `open`. -/

def Grid.degree (g : Grid) (i j : Nat) : Nat :=
  (if 0 < j ∧ g.hasH i (j-1) ∧ g.htype i (j-1) ≠ TYPE_OPEN then 1 else 0) +
  (if j < g.n - 1 ∧ g.hasH i j ∧ g.htype i j ≠ TYPE_OPEN then 1 else 0) +
  (if 0 < i ∧ g.hasV (i-1) j ∧ g.vtype (i-1) j ≠ TYPE_OPEN then 1 else 0) +
  (if i < g.m - 1 ∧ g.hasV i j ∧ g.vtype i j ≠ TYPE_OPEN then 1 else 0)

/-- `Circuit._check_circuit_valid_by_degree` (lines 1882-1898): the
circuit is degree-valid iff no junction has degree exactly 1. -/
def Grid.degreeOk (g : Grid) : Bool :=
  g.cells.all (fun p => g.degree p.1 p.2 ≠ 1)

/-! ### Connectivity resolver (`Circuit._get_grid_nodes`, lines 1308-1340)

The DFS flood fill unifies junctions joined by present `short` edges whose
measurement is `none`.  `shortAdj` is the single-step traversal relation of
the `dfs` helper (its four recursive calls); the flood fill is embedded as
a bounded closure computation, and `gridNodes` reproduces the dense
component ids (components are numbered in discovery order, i.e. by the
row-major position of their first-visited junction). -/

/-- A vertical edge the flood fill may traverse: present, of type `short`
and with no measurement attached (the guard of the first and third
recursive `dfs` calls, lines 1320 and 1322). -/
def Grid.vShortEdge (g : Grid) (i j : Nat) : Bool :=
  g.hasV i j && decide (g.vtype i j = TYPE_SHORT) && decide (g.vmeas i j = MEAS_TYPE_NONE)

/-- A horizontal edge the flood fill may traverse (lines 1321 and 1323). -/
def Grid.hShortEdge (g : Grid) (i j : Nat) : Bool :=
  g.hasH i j && decide (g.htype i j = TYPE_SHORT) && decide (g.hmeas i j = MEAS_TYPE_NONE)

/-- One DFS traversal step: from junction `p` to junction `q` across a
present, unmeasured `short` edge.  Mirrors the four guarded recursive
calls of `dfs` (lines 1320-1323), including the bounds checks at the top
of `dfs`. -/
def Grid.shortAdj (g : Grid) (p q : Nat × Nat) : Bool :=
  (decide (p.1 < g.m) && decide (p.2 < g.n)) &&
  ((decide (0 < p.1) && decide (q = (p.1 - 1, p.2)) && g.vShortEdge (p.1 - 1) p.2) ||
   (decide (0 < p.2) && decide (q = (p.1, p.2 - 1)) && g.hShortEdge p.1 (p.2 - 1)) ||
   (decide (p.1 < g.m - 1) && decide (q = (p.1 + 1, p.2)) && g.vShortEdge p.1 p.2) ||
   (decide (p.2 < g.n - 1) && decide (q = (p.1, p.2 + 1)) && g.hShortEdge p.1 p.2))

theorem shortAdj_iff {g : Grid} {p q : Nat × Nat} :
    g.shortAdj p q = true ↔ (p.1 < g.m ∧ p.2 < g.n) ∧
      ((0 < p.1 ∧ q = (p.1 - 1, p.2) ∧ g.vShortEdge (p.1 - 1) p.2 = true) ∨
       (0 < p.2 ∧ q = (p.1, p.2 - 1) ∧ g.hShortEdge p.1 (p.2 - 1) = true) ∨
       (p.1 < g.m - 1 ∧ q = (p.1 + 1, p.2) ∧ g.vShortEdge p.1 p.2 = true) ∨
       (p.2 < g.n - 1 ∧ q = (p.1, p.2 + 1) ∧ g.hShortEdge p.1 p.2 = true)) := by
  unfold Grid.shortAdj
  simp only [Bool.and_eq_true, Bool.or_eq_true, decide_eq_true_eq, and_assoc, or_assoc]

/-- Connectivity by unmeasured-short paths: the reflexive-transitive
closure of single DFS steps.  This is the specification-side relation of
claim C3. -/
def Grid.ShortReach (g : Grid) (p q : Nat × Nat) : Prop :=
  Relation.ReflTransGen (fun a b => g.shortAdj a b = true) p q

/-- One round of the flood-fill closure: add every junction adjacent to
the set collected so far. -/
def Grid.expandShort (g : Grid) (s : List (Nat × Nat)) : List (Nat × Nat) :=
  s ++ g.cells.filter (fun q => decide (q ∉ s) && s.any (fun p => g.shortAdj p q))

/-- All junctions the DFS starting at `p` visits: the closure of `{p}`
under `expandShort`, which saturates within `m*n` rounds. -/
def Grid.reachList (g : Grid) (p : Nat × Nat) : List (Nat × Nat) :=
  (Grid.expandShort g)^[g.m * g.n] [p]

/-- Row-major index of a junction, used to order flood-fill discovery. -/
def Grid.rmIdx (g : Grid) (p : Nat × Nat) : Nat := p.1 * g.n + p.2

/-- Minimum of `f` over a list, folded from an initial bound (helper for
the discovery-order representative of a flood-fill component). -/
def listMinBy (f : (Nat × Nat) → Nat) (init : Nat) (l : List (Nat × Nat)) : Nat :=
  l.foldl (fun a x => min a (f x)) init

/-- The node key of a junction: the least row-major index in its
flood-fill component (i.e. the first junction of the component that the
outer row-major loop of `_get_grid_nodes` visits). -/
def Grid.nodeKey (g : Grid) (p : Nat × Nat) : Nat :=
  listMinBy (g.rmIdx) (g.m * g.n) (g.reachList p)

/-- The component representatives in discovery order: row-major indices of
the junctions that start a new component in `_get_grid_nodes`. -/
def Grid.nodeReps (g : Grid) : List Nat :=
  (g.cells.filter (fun p => g.nodeKey p == g.rmIdx p)).map (fun p => g.rmIdx p)

/-- The dense node id assigned by the flood fill of `_get_grid_nodes`:
components are numbered `0, 1, 2, …` in discovery order. -/
def Grid.gridNodes (g : Grid) (p : Nat × Nat) : Nat :=
  (g.nodeReps).indexOf (g.nodeKey p)

/-! #### Correctness of the bounded flood-fill closure -/

theorem shortAdj_left_bounds {g : Grid} {p q : Nat × Nat}
    (h : g.shortAdj p q = true) : p.1 < g.m ∧ p.2 < g.n :=
  (shortAdj_iff.1 h).1

theorem shortAdj_right_bounds {g : Grid} {p q : Nat × Nat}
    (h : g.shortAdj p q = true) : q.1 < g.m ∧ q.2 < g.n := by
  obtain ⟨⟨h1, h2⟩, hc⟩ := shortAdj_iff.1 h
  rcases hc with ⟨hb, rfl, _⟩ | ⟨hb, rfl, _⟩ | ⟨hb, rfl, _⟩ | ⟨hb, rfl, _⟩ <;>
    constructor <;> simp <;> omega

theorem shortAdj_symm {g : Grid} {p q : Nat × Nat}
    (h : g.shortAdj p q = true) : g.shortAdj q p = true := by
  have hqb := shortAdj_right_bounds h
  obtain ⟨⟨h1, h2⟩, hc⟩ := shortAdj_iff.1 h
  rw [shortAdj_iff]
  refine ⟨hqb, ?_⟩
  rcases hc with ⟨hb, rfl, he⟩ | ⟨hb, rfl, he⟩ | ⟨hb, rfl, he⟩ | ⟨hb, rfl, he⟩
  · exact Or.inr (Or.inr (Or.inl
      ⟨by omega, by simp [Prod.ext_iff]; omega, by simpa using he⟩))
  · exact Or.inr (Or.inr (Or.inr
      ⟨by omega, by simp [Prod.ext_iff]; omega, by simpa using he⟩))
  · exact Or.inl ⟨by omega, by simp [Prod.ext_iff], by simpa using he⟩
  · exact Or.inr (Or.inl ⟨by omega, by simp [Prod.ext_iff], by simpa using he⟩)

theorem ShortReach.symm {g : Grid} {p q : Nat × Nat}
    (h : g.ShortReach p q) : g.ShortReach q p := by
  induction h with
  | refl => exact Relation.ReflTransGen.refl
  | tail _ hadj ih =>
      exact Relation.ReflTransGen.trans
        (Relation.ReflTransGen.single (shortAdj_symm hadj)) ih

theorem mem_expandShort_of_mem {g : Grid} {s : List (Nat × Nat)} {x : Nat × Nat}
    (h : x ∈ s) : x ∈ g.expandShort s :=
  List.mem_append_left _ h

theorem mem_expandShort_elim {g : Grid} {s : List (Nat × Nat)} {x : Nat × Nat}
    (h : x ∈ g.expandShort s) :
    x ∈ s ∨ (x ∈ g.cells ∧ ∃ r ∈ s, g.shortAdj r x = true) := by
  unfold Grid.expandShort at h
  rcases List.mem_append.1 h with h | h
  · exact Or.inl h
  · obtain ⟨hc, hcond⟩ := List.mem_filter.1 h
    simp only [Bool.and_eq_true, decide_eq_true_eq, List.any_eq_true] at hcond
    exact Or.inr ⟨hc, hcond.2⟩

theorem expandShort_nodup {g : Grid} {s : List (Nat × Nat)} (h : s.Nodup) :
    (g.expandShort s).Nodup := by
  unfold Grid.expandShort
  refine List.Nodup.append h ((nodup_idxList _ _).filter _) ?_
  intro x hx hx'
  obtain ⟨_, hcond⟩ := List.mem_filter.1 hx'
  simp only [Bool.and_eq_true, decide_eq_true_eq] at hcond
  exact hcond.1 hx

theorem expandShort_length {g : Grid} {s : List (Nat × Nat)}
    (h : g.expandShort s ≠ s) : s.length < (g.expandShort s).length := by
  unfold Grid.expandShort at h ⊢
  rcases Nat.eq_zero_or_pos (g.cells.filter
      (fun q => decide (q ∉ s) && s.any (fun p => g.shortAdj p q))).length with h0 | h0
  · exact absurd (by rw [List.length_eq_zero.1 h0, List.append_nil]) h
  · rw [List.length_append]; omega

/-- A fixpoint of `expandShort` is closed under single flood-fill steps. -/
theorem expandShort_fixpoint_closed {g : Grid} {s : List (Nat × Nat)}
    (h : g.expandShort s = s) {x q : Nat × Nat}
    (hx : x ∈ s) (hadj : g.shortAdj x q = true) : q ∈ s := by
  by_contra hq
  have hfil : g.cells.filter
      (fun q => decide (q ∉ s) && s.any (fun p => g.shortAdj p q)) = [] := by
    unfold Grid.expandShort at h
    have := congrArg List.length h
    rw [List.length_append] at this
    exact List.length_eq_zero.1 (by omega)
  have hqc : q ∈ g.cells := by
    have hb := shortAdj_right_bounds hadj
    exact mem_idxList.2 hb
  have : q ∈ g.cells.filter
      (fun q => decide (q ∉ s) && s.any (fun p => g.shortAdj p q)) := by
    refine List.mem_filter.2 ⟨hqc, ?_⟩
    simp only [Bool.and_eq_true, decide_eq_true_eq, List.any_eq_true]
    exact ⟨hq, x, hx, hadj⟩
  rw [hfil] at this
  exact absurd this (List.not_mem_nil q)

theorem mem_reachIter_self {g : Grid} (p : Nat × Nat) (k : Nat) :
    p ∈ (Grid.expandShort g)^[k] [p] := by
  induction k with
  | zero => simp
  | succ k ih =>
      rw [Function.iterate_succ_apply']
      exact mem_expandShort_of_mem ih

theorem reachIter_sound {g : Grid} {p : Nat × Nat} (k : Nat) :
    ∀ x ∈ (Grid.expandShort g)^[k] [p], g.ShortReach p x := by
  induction k with
  | zero =>
      intro x hx
      simp only [Function.iterate_zero, id_eq, List.mem_singleton] at hx
      subst hx
      exact Relation.ReflTransGen.refl
  | succ k ih =>
      intro x hx
      rw [Function.iterate_succ_apply'] at hx
      rcases mem_expandShort_elim hx with hx | ⟨_, r, hr, hadj⟩
      · exact ih x hx
      · exact Relation.ReflTransGen.tail (ih r hr) hadj

theorem reachIter_subset_cells {g : Grid} {p : Nat × Nat} (hp : p ∈ g.cells)
    (k : Nat) : ∀ x ∈ (Grid.expandShort g)^[k] [p], x ∈ g.cells := by
  induction k with
  | zero =>
      intro x hx
      simp only [Function.iterate_zero, id_eq, List.mem_singleton] at hx
      exact hx ▸ hp
  | succ k ih =>
      intro x hx
      rw [Function.iterate_succ_apply'] at hx
      rcases mem_expandShort_elim hx with hx | ⟨hc, _⟩
      · exact ih x hx
      · exact hc

theorem reachIter_nodup {g : Grid} (p : Nat × Nat) (k : Nat) :
    ((Grid.expandShort g)^[k] [p]).Nodup := by
  induction k with
  | zero => simp
  | succ k ih =>
      rw [Function.iterate_succ_apply']
      exact expandShort_nodup ih

theorem idxList_length (a b : Nat) : (idxList a b).length = a * b := by
  induction a with
  | zero => simp [idxList]
  | succ a ih =>
      unfold idxList at ih ⊢
      rw [List.range_succ, List.flatMap_append, List.length_append, ih]
      simp [Nat.succ_mul]

theorem cells_length (g : Grid) : g.cells.length = g.m * g.n :=
  idxList_length g.m g.n

/-- The flood-fill iteration saturates after `m*n` rounds. -/
theorem reachList_saturated {g : Grid} {p : Nat × Nat} (hp : p ∈ g.cells) :
    g.expandShort (g.reachList p) = g.reachList p := by
  unfold Grid.reachList
  by_contra hne
  -- find a fixpoint index k ≤ m*n; since there is none below m*n, lengths grow
  have hgrow : ∀ k, k ≤ g.m * g.n →
      (∀ j, j < k → g.expandShort ((Grid.expandShort g)^[j] [p]) ≠ (Grid.expandShort g)^[j] [p]) →
      k + 1 ≤ ((Grid.expandShort g)^[k] [p]).length := by
    intro k
    induction k with
    | zero => intro _ _; simp
    | succ k ih =>
        intro hk hall
        have h1 : k + 1 ≤ ((Grid.expandShort g)^[k] [p]).length :=
          ih (by omega) (fun j hj => hall j (by omega))
        have h2 := expandShort_length (hall k (by omega))
        rw [Function.iterate_succ_apply']
        omega
  have hnofix : ∀ j, j < g.m * g.n →
      g.expandShort ((Grid.expandShort g)^[j] [p]) ≠ (Grid.expandShort g)^[j] [p] := by
    intro j hj hfix
    -- a fixpoint propagates up to m*n, contradicting hne
    have hconst : ∀ i, (Grid.expandShort g)^[j + i] [p] = (Grid.expandShort g)^[j] [p] := by
      intro i
      induction i with
      | zero => rfl
      | succ i ih =>
          have : j + (i + 1) = (j + i) + 1 := by omega
          rw [this, Function.iterate_succ_apply', ih, hfix]
    have hup := hconst (g.m * g.n - j)
    have hj' : j + (g.m * g.n - j) = g.m * g.n := by omega
    rw [hj'] at hup
    exact hne (by rw [hup]; exact hfix)
  have hlen := hgrow (g.m * g.n) (le_refl _) (fun j hj => hnofix j hj)
  have hsub : List.Subperm ((Grid.expandShort g)^[g.m * g.n] [p]) g.cells :=
    (reachIter_nodup p _).subperm (fun x hx => reachIter_subset_cells hp _ x hx)
  have hbound := hsub.length_le
  rw [cells_length] at hbound
  omega

/-- Completeness of the bounded flood fill: every junction connected to
`p` by unmeasured-short steps is collected. -/
theorem reachList_complete {g : Grid} {p q : Nat × Nat} (hp : p ∈ g.cells)
    (h : g.ShortReach p q) : q ∈ g.reachList p := by
  induction h with
  | refl => exact mem_reachIter_self p _
  | tail _ hadj ih =>
      exact expandShort_fixpoint_closed (reachList_saturated hp) ih hadj

/-- The junctions collected by the flood fill from `p` are exactly those
reachable from `p` through present, unmeasured `short` edges. -/
theorem mem_reachList_iff {g : Grid} {p q : Nat × Nat} (hp : p ∈ g.cells) :
    q ∈ g.reachList p ↔ g.ShortReach p q :=
  ⟨reachIter_sound _ q, reachList_complete hp⟩

/-! #### From reachable sets to dense node ids -/

theorem listMinBy_cons (f : (Nat × Nat) → Nat) (i : Nat) (a : Nat × Nat)
    (l : List (Nat × Nat)) : listMinBy f i (a :: l) = listMinBy f (min i (f a)) l := rfl

theorem listMinBy_le_init (f : (Nat × Nat) → Nat) (l : List (Nat × Nat)) :
    ∀ i, listMinBy f i l ≤ i := by
  induction l with
  | nil => intro i; exact le_refl i
  | cons a l ih =>
      intro i
      rw [listMinBy_cons]
      exact le_trans (ih _) (min_le_left _ _)

theorem listMinBy_le_mem (f : (Nat × Nat) → Nat) (l : List (Nat × Nat))
    {x : Nat × Nat} (hx : x ∈ l) : ∀ i, listMinBy f i l ≤ f x := by
  induction l with
  | nil => exact absurd hx (List.not_mem_nil x)
  | cons a l ih =>
      intro i
      rw [listMinBy_cons]
      rcases List.mem_cons.1 hx with rfl | hx
      · exact le_trans (listMinBy_le_init f l _) (min_le_right _ _)
      · exact ih hx _

theorem listMinBy_eq_init_or_mem (f : (Nat × Nat) → Nat) (l : List (Nat × Nat)) :
    ∀ i, listMinBy f i l = i ∨ ∃ x ∈ l, listMinBy f i l = f x := by
  induction l with
  | nil => intro i; exact Or.inl rfl
  | cons a l ih =>
      intro i
      rw [listMinBy_cons]
      rcases Nat.le_total i (f a) with hle | hle
      · rw [min_eq_left hle]
        rcases ih i with h | ⟨x, hx, h⟩
        · exact Or.inl h
        · exact Or.inr ⟨x, List.mem_cons_of_mem a hx, h⟩
      · rw [min_eq_right hle]
        rcases ih (f a) with h | ⟨x, hx, h⟩
        · exact Or.inr ⟨a, List.mem_cons_self a l, h⟩
        · exact Or.inr ⟨x, List.mem_cons_of_mem a hx, h⟩

/-- `listMinBy` only depends on the set of elements of the list. -/
theorem listMinBy_congr (f : (Nat × Nat) → Nat) (i : Nat)
    {l₁ l₂ : List (Nat × Nat)} (h : ∀ x, x ∈ l₁ ↔ x ∈ l₂) :
    listMinBy f i l₁ = listMinBy f i l₂ := by
  refine Nat.le_antisymm ?_ ?_
  · rcases listMinBy_eq_init_or_mem f l₂ i with h2 | ⟨x, hx, h2⟩
    · rw [h2]; exact listMinBy_le_init f l₁ i
    · rw [h2]; exact listMinBy_le_mem f l₁ ((h x).2 hx) i
  · rcases listMinBy_eq_init_or_mem f l₁ i with h1 | ⟨x, hx, h1⟩
    · rw [h1]; exact listMinBy_le_init f l₂ i
    · rw [h1]; exact listMinBy_le_mem f l₂ ((h x).1 hx) i

theorem rmIdx_lt {g : Grid} {p : Nat × Nat} (h1 : p.1 < g.m) (h2 : p.2 < g.n) :
    g.rmIdx p < g.m * g.n := by
  unfold Grid.rmIdx
  calc p.1 * g.n + p.2 < p.1 * g.n + g.n := by omega
  _ = (p.1 + 1) * g.n := by ring
  _ ≤ g.m * g.n := Nat.mul_le_mul_right _ h1

theorem rmIdx_inj {g : Grid} {p q : Nat × Nat} (hp : p.2 < g.n) (hq : q.2 < g.n)
    (h : g.rmIdx p = g.rmIdx q) : p = q := by
  unfold Grid.rmIdx at h
  have h1 : p.1 = q.1 := by
    rcases Nat.lt_trichotomy p.1 q.1 with hlt | heq | hlt
    · exfalso
      have : p.1 * g.n + p.2 < q.1 * g.n + q.2 := by
        calc p.1 * g.n + p.2 < (p.1 + 1) * g.n := by rw [Nat.succ_mul]; omega
        _ ≤ q.1 * g.n := Nat.mul_le_mul_right _ hlt
        _ ≤ q.1 * g.n + q.2 := Nat.le_add_right _ _
      omega
    · exact heq
    · exfalso
      have : q.1 * g.n + q.2 < p.1 * g.n + p.2 := by
        calc q.1 * g.n + q.2 < (q.1 + 1) * g.n := by rw [Nat.succ_mul]; omega
        _ ≤ p.1 * g.n := Nat.mul_le_mul_right _ hlt
        _ ≤ p.1 * g.n + p.2 := Nat.le_add_right _ _
      omega
  have h2 : p.2 = q.2 := by rw [h1] at h; omega
  exact Prod.ext h1 h2

/-- Junctions connected by unmeasured-short paths get the same node key. -/
theorem nodeKey_eq_of_reach {g : Grid} {p q : Nat × Nat} (hp : p ∈ g.cells)
    (hq : q ∈ g.cells) (h : g.ShortReach p q) : g.nodeKey p = g.nodeKey q := by
  unfold Grid.nodeKey
  refine listMinBy_congr _ _ (fun x => ?_)
  rw [mem_reachList_iff hp, mem_reachList_iff hq]
  constructor
  · intro hx; exact Relation.ReflTransGen.trans (ShortReach.symm h) hx
  · intro hx; exact Relation.ReflTransGen.trans h hx

/-- The node key of an in-bounds junction is attained by a junction of its
component (it is the least row-major index of the component). -/
theorem nodeKey_attained {g : Grid} {p : Nat × Nat} (hp : p ∈ g.cells) :
    ∃ a, a ∈ g.reachList p ∧ g.rmIdx a = g.nodeKey p := by
  obtain ⟨h1, h2⟩ := mem_idxList.1 hp
  have hlt : g.nodeKey p < g.m * g.n := by
    have hle := listMinBy_le_mem g.rmIdx (g.reachList p) (mem_reachIter_self p _) (g.m * g.n)
    exact lt_of_le_of_lt hle (rmIdx_lt h1 h2)
  rcases listMinBy_eq_init_or_mem g.rmIdx (g.reachList p) (g.m * g.n) with h | ⟨x, hx, h⟩
  · exfalso; unfold Grid.nodeKey at hlt; omega
  · exact ⟨x, hx, h.symm⟩

/-- The node key of an in-bounds junction occurs in the representative
list (its component's first-discovered junction is a representative). -/
theorem nodeKey_mem_nodeReps {g : Grid} {p : Nat × Nat} (hp : p ∈ g.cells) :
    g.nodeKey p ∈ g.nodeReps := by
  obtain ⟨a, ha, hka⟩ := nodeKey_attained hp
  have hac : a ∈ g.cells := reachIter_subset_cells hp _ a ha
  have hreach : g.ShortReach p a := (mem_reachList_iff hp).1 ha
  have hkey : g.nodeKey a = g.nodeKey p := (nodeKey_eq_of_reach hp hac hreach).symm
  unfold Grid.nodeReps
  refine List.mem_map.2 ⟨a, ?_, hka⟩
  refine List.mem_filter.2 ⟨hac, ?_⟩
  simp only [beq_iff_eq]
  rw [hkey, hka]

theorem nodeKey_eq_iff_reach {g : Grid} {p q : Nat × Nat} (hp : p ∈ g.cells)
    (hq : q ∈ g.cells) : g.nodeKey p = g.nodeKey q ↔ g.ShortReach p q := by
  constructor
  · intro h
    obtain ⟨a, ha, hka⟩ := nodeKey_attained hp
    obtain ⟨b, hb, hkb⟩ := nodeKey_attained hq
    have hac : a ∈ g.cells := reachIter_subset_cells hp _ a ha
    have hbc : b ∈ g.cells := reachIter_subset_cells hq _ b hb
    have hab : a = b := by
      refine rmIdx_inj (mem_idxList.1 hac).2 (mem_idxList.1 hbc).2 ?_
      rw [hka, hkb, h]
    have hpa : g.ShortReach p a := (mem_reachList_iff hp).1 ha
    have hqb : g.ShortReach q b := (mem_reachList_iff hq).1 hb
    exact Relation.ReflTransGen.trans hpa (hab ▸ (ShortReach.symm hqb))
  · exact nodeKey_eq_of_reach hp hq

/-- C3: for every grid, two junctions resolve to the same electrical node
identifier if and only if they are connected by a path of present `short`
edges carrying no measurement — the edges the depth-first flood fill of
`_get_grid_nodes` traverses. -/
theorem C3_same_node_id_iff_unmeasured_short_path (g : Grid) (p q : Nat × Nat)
    (hp : p.1 < g.m ∧ p.2 < g.n) (hq : q.1 < g.m ∧ q.2 < g.n) :
    g.gridNodes p = g.gridNodes q ↔ g.ShortReach p q := by
  have hp' : p ∈ g.cells := mem_idxList.2 hp
  have hq' : q ∈ g.cells := mem_idxList.2 hq
  unfold Grid.gridNodes
  rw [List.indexOf_inj (nodeKey_mem_nodeReps hp') (nodeKey_mem_nodeReps hq')]
  exact nodeKey_eq_iff_reach hp' hq'

/-! ### Branches and netlist assembly (`Circuit._init_netlist`, lines 1361-1526)

A branch is the netlist-level record built for each present, non-collapsed
edge (the Python dict literal at lines 1398-1411 / 1437-1450; the constant
`info` field is omitted).  Node-id strings (`f"{int(...)}"`) are decimal
numerals of the `grid_nodes` integers, so node ids are embedded as `Nat`. -/

structure Branch where
  n1 : Nat
  n2 : Nat
  type : Nat
  label : Int
  value : Int
  value_unit : Nat
  measure : Nat
  measure_label : Int
  meas_comp_same_direction : Bool
  control_measure_label : Int
  order : Nat
deriving DecidableEq

/-- The conflict table of `_check_conflict_component_measure`
(lines 1342-1356). -/
def conflict_pairs : List (Nat × Nat) :=
  [(TYPE_SHORT, MEAS_TYPE_VOLTAGE),
   (TYPE_OPEN, MEAS_TYPE_CURRENT),
   (TYPE_VOLTAGE_SOURCE, MEAS_TYPE_VOLTAGE),
   (TYPE_VCVS, MEAS_TYPE_VOLTAGE),
   (TYPE_CCVS, MEAS_TYPE_VOLTAGE),
   (TYPE_CURRENT_SOURCE, MEAS_TYPE_CURRENT),
   (TYPE_VCCS, MEAS_TYPE_CURRENT),
   (TYPE_CCCS, MEAS_TYPE_CURRENT)]

def check_conflict_component_measure (comp_type comp_measure : Nat) : Bool :=
  conflict_pairs.any (fun pr => comp_type == pr.1 && comp_measure == pr.2)

/-- The branch built for a present horizontal edge `(i, j)` (lines
1394-1411), after the optional terminal swap when `hcomp_direction` is
set. -/
def hedgeBranch (g : Grid) (i j ord : Nat) : Branch :=
  let gn1 := g.gridNodes (i, j)
  let gn2 := g.gridNodes (i, j + 1)
  { n1 := if g.hdir i j then gn2 else gn1
    n2 := if g.hdir i j then gn1 else gn2
    type := g.htype i j
    label := g.hlabel i j
    value := g.hvalue i j
    value_unit := g.hunit i j
    measure := g.hmeas i j
    measure_label := g.hmeasLabel i j
    meas_comp_same_direction := g.hmeasDir i j == g.hdir i j
    control_measure_label := g.hctrl i j
    order := ord }

/-- The branch built for a present vertical edge `(i, j)` (lines
1432-1450). -/
def vedgeBranch (g : Grid) (i j ord : Nat) : Branch :=
  let gn1 := g.gridNodes (i, j)
  let gn2 := g.gridNodes (i + 1, j)
  { n1 := if g.vdir i j then gn2 else gn1
    n2 := if g.vdir i j then gn1 else gn2
    type := g.vtype i j
    label := g.vlabel i j
    value := g.vvalue i j
    value_unit := g.vunit i j
    measure := g.vmeas i j
    measure_label := g.vmeasLabel i j
    meas_comp_same_direction := g.vmeasDir i j == g.vdir i j
    control_measure_label := g.vctrl i j
    order := ord }

/-- Processing of the horizontal edge of cell `(i, j)` (lines 1384-1422).
`none` models both the invalid-circuit early returns and the
`assert hcomp_type != TYPE_OPEN` failure (an exception the generation
driver treats exactly like an invalid circuit). -/
def processHedge (g : Grid) (i j ord : Nat) : Option (List Branch × Nat) :=
  if j < g.n - 1 ∧ g.hasH i j then
    if g.htype i j = TYPE_OPEN then none
    else if g.gridNodes (i, j) = g.gridNodes (i, j + 1) then
      if g.htype i j ≠ TYPE_SHORT then none else some ([], ord)
    else if check_conflict_component_measure (g.htype i j) (g.hmeas i j) then none
    else some ([hedgeBranch g i j ord], ord + 1)
  else some ([], ord)

/-- Processing of the vertical edge of cell `(i, j)` (lines 1424-1458;
note this arm has no `open`-type assertion in the source). -/
def processVedge (g : Grid) (i j ord : Nat) : Option (List Branch × Nat) :=
  if i < g.m - 1 ∧ g.hasV i j then
    if g.gridNodes (i, j) = g.gridNodes (i + 1, j) then
      if g.vtype i j ≠ TYPE_SHORT then none else some ([], ord)
    else if check_conflict_component_measure (g.vtype i j) (g.vmeas i j) then none
    else some ([vedgeBranch g i j ord], ord + 1)
  else some ([], ord)

/-- The branch-assembly scan: cells in row-major order, the horizontal
edge of a cell first, then its vertical edge, `add_order` incremented per
appended branch. -/
def buildAux (g : Grid) : List (Nat × Nat) → Nat → Option (List Branch)
  | [], _ => some []
  | c :: rest, ord =>
      (processHedge g c.1 c.2 ord).bind (fun out1 =>
        (processVedge g c.1 c.2 out1.2).bind (fun out2 =>
          (buildAux g rest out2.2).map (fun bs => out1.1 ++ (out2.1 ++ bs))))

def buildBranches (g : Grid) : Option (List Branch) := buildAux g g.cells 0

/-- The control-binding validity check of `_init_netlist` (lines
1460-1465): it runs over **every** branch `br` (not only dependent
sources) and demands exactly one branch with a voltage measurement whose
`measure_label` equals `br`'s `control_measure_label`. -/
def control_check (bs : List Branch) : Bool :=
  bs.all (fun br =>
    (bs.filter (fun b =>
      b.measure_label == br.control_measure_label &&
      b.measure == MEAS_TYPE_VOLTAGE)).length == 1)

def isVoltageSourceBranch (b : Branch) : Bool := b.type == TYPE_VOLTAGE_SOURCE

/-- All node ids occurring in the branch list (the `all_nodes` set of
lines 1496-1499; duplicates are harmless since the map is pointwise). -/
def allBranchNodes (bs : List Branch) : List Nat :=
  bs.map (fun b => b.n1) ++ bs.map (fun b => b.n2)

/-- The `node_map` dict of lines 1503-1508: the chosen ground node goes to
`0`, every other node id `x` to `x + 1`. -/
def groundNodeMap (nodes : List Nat) (gnode : Nat) : List (Nat × Nat) :=
  nodes.map (fun x => (x, if x = gnode then 0 else x + 1))

def applyNodeMap (nm : List (Nat × Nat)) (x : Nat) : Nat :=
  (nm.lookup x).getD x

/-- The re-grounding pass of `_init_netlist` (lines 1489-1513): take the
second terminal of the first voltage-source branch as the ground node and
rewrite every branch's terminals through `node_map`; skipped when no
voltage-source branch exists. -/
def regroundBranches (bs : List Branch) : List Branch :=
  match bs.find? isVoltageSourceBranch with
  | none => bs
  | some b =>
      let nm := groundNodeMap (allBranchNodes bs) b.n2
      bs.map (fun br => { br with n1 := applyNodeMap nm br.n1, n2 := applyNodeMap nm br.n2 })

/-- `Circuit._init_netlist`: assemble branches, run the control-binding
check, then re-ground.  `none` is any of the invalid-circuit early
returns. -/
def initNetlist (g : Grid) : Option (List Branch) :=
  match buildBranches g with
  | none => none
  | some bs => if control_check bs then some (regroundBranches bs) else none

/-- The terminal `valid` flag of a constructed `Circuit`: the degree check
of `_check_circuit_valid_by_degree` and completion of `_init_netlist`
without an invalid-circuit return. -/
def circuitValid (g : Grid) : Bool := g.degreeOk && (initNetlist g).isSome

/-- The final branch list of a valid circuit (empty if invalid). -/
def circuitBranches (g : Grid) : List Branch := (initNetlist g).getD []

/-- C4: in every circuit marked valid every junction has degree 0 or at
least 2 (degree counting incident present non-`open` edges), and a
circuit containing a junction of degree exactly 1 is marked invalid. -/
theorem C4_degree_zero_or_at_least_two (g : Grid) :
    (circuitValid g = true →
      ∀ i j, i < g.m → j < g.n → g.degree i j = 0 ∨ 2 ≤ g.degree i j) ∧
    (∀ i j, i < g.m → j < g.n → g.degree i j = 1 → circuitValid g = false) := by
  constructor
  · intro hv i j hi hj
    have hdeg : g.degreeOk = true := by
      simp only [circuitValid, Bool.and_eq_true] at hv
      exact hv.1
    have := List.all_eq_true.1 hdeg (i, j) (mem_idxList.2 ⟨hi, hj⟩)
    simp only [decide_eq_true_eq] at this
    omega
  · intro i j hi hj hdeg
    unfold circuitValid
    have hfalse : g.degreeOk = false := by
      rcases Bool.eq_false_or_eq_true g.degreeOk with h | h
      · have := List.all_eq_true.1 h (i, j) (mem_idxList.2 ⟨hi, hj⟩)
        simp only [decide_eq_true_eq] at this
        exact absurd hdeg this
      · exact h
    rw [hfalse, Bool.false_and]

/-! ### The grounding remap (claims C5 and C6) -/

/-- The pointwise node remap performed by `node_map`: the ground node
becomes `0`, every other node id is shifted up by one. -/
def groundRemapNode (gnode x : Nat) : Nat := if x = gnode then 0 else x + 1

def groundRemapBranch (gnode : Nat) (br : Branch) : Branch :=
  { br with n1 := groundRemapNode gnode br.n1, n2 := groundRemapNode gnode br.n2 }

theorem applyNodeMap_groundNodeMap (gnode x : Nat) (nodes : List Nat)
    (hx : x ∈ nodes) :
    applyNodeMap (groundNodeMap nodes gnode) x = groundRemapNode gnode x := by
  induction nodes with
  | nil => exact absurd hx (List.not_mem_nil x)
  | cons a l ih =>
      unfold groundNodeMap applyNodeMap at ih ⊢
      by_cases hax : x = a
      · subst hax
        simp [List.lookup, groundRemapNode]
      · rcases List.mem_cons.1 hx with h | h
        · exact absurd h hax
        · have hbeq : (x == a) = false := beq_eq_false_iff_ne.mpr hax
          simpa [List.lookup, hbeq] using ih h

/-- When a voltage-source branch exists, the lookup-table re-grounding is
the pointwise remap at the first voltage source's second terminal. -/
theorem regroundBranches_eq_map {bs : List Branch} {b : Branch}
    (h : bs.find? isVoltageSourceBranch = some b) :
    regroundBranches bs = bs.map (groundRemapBranch b.n2) := by
  unfold regroundBranches
  rw [h]
  refine List.map_congr_left (fun br hbr => ?_)
  unfold groundRemapBranch
  have h1 : br.n1 ∈ allBranchNodes bs :=
    List.mem_append_left _ (List.mem_map.2 ⟨br, hbr, rfl⟩)
  have h2 : br.n2 ∈ allBranchNodes bs :=
    List.mem_append_right _ (List.mem_map.2 ⟨br, hbr, rfl⟩)
  rw [applyNodeMap_groundNodeMap _ _ _ h1, applyNodeMap_groundNodeMap _ _ _ h2]

theorem regroundBranches_no_vs {bs : List Branch}
    (h : bs.find? isVoltageSourceBranch = none) : regroundBranches bs = bs := by
  unfold regroundBranches
  rw [h]

/-- C5: after branch assembly, if a voltage-source branch exists the
re-grounding step renames the second terminal of the first voltage-source
branch (in scan order) to `0` and every other node id `x` to `x + 1` in
every branch; if no voltage-source branch exists, node ids are left
unchanged. -/
theorem C5_reground_first_vs_negative_terminal (g : Grid) (bs : List Branch)
    (hb : buildBranches g = some bs) (hc : control_check bs = true) :
    (∀ b, bs.find? isVoltageSourceBranch = some b →
      initNetlist g = some (bs.map (groundRemapBranch b.n2))) ∧
    (bs.find? isVoltageSourceBranch = none → initNetlist g = some bs) := by
  constructor
  · intro b hfind
    unfold initNetlist
    rw [hb]
    simp only [hc, if_true]
    rw [regroundBranches_eq_map hfind]
  · intro hfind
    unfold initNetlist
    rw [hb]
    simp only [hc, if_true]
    rw [regroundBranches_no_vs hfind]

theorem find?_map_of_pred_invariant {f : Branch → Branch} {p : Branch → Bool}
    (hp : ∀ x, p (f x) = p x) (l : List Branch) :
    (l.map f).find? p = (l.find? p).map f := by
  induction l with
  | nil => rfl
  | cons a l ih =>
      simp only [List.map_cons, List.find?_cons]
      rw [hp a]
      cases hpa : p a
      · exact ih
      · rfl

theorem isVS_groundRemap (gnode : Nat) (br : Branch) :
    isVoltageSourceBranch (groundRemapBranch gnode br) = isVoltageSourceBranch br := rfl

/-- Concrete branch list for the C6 counterexample: a voltage source and a
resistor between nodes `0` and `1` (an assembled, not-yet-grounded list). -/
def preGroundBranchesEx : List Branch :=
  [{ n1 := 0, n2 := 1, type := TYPE_VOLTAGE_SOURCE, label := 1, value := 5,
     value_unit := 0, measure := MEAS_TYPE_NONE, measure_label := 0,
     meas_comp_same_direction := true, control_measure_label := 0, order := 0 },
   { n1 := 0, n2 := 1, type := TYPE_RESISTOR, label := 1, value := 7,
     value_unit := 0, measure := MEAS_TYPE_NONE, measure_label := 0,
     meas_comp_same_direction := true, control_measure_label := 0, order := 1 }]

/-- C6 counterexample: re-running the grounding remap on an
already-grounded branch list is **not** a no-op — on the grounded form of
`preGroundBranchesEx` (nodes `{0, 1}`), the second run moves node `1` to
`2`. -/
theorem C6_counterexample_reground_not_idempotent :
    regroundBranches (regroundBranches preGroundBranchesEx) ≠
      regroundBranches preGroundBranchesEx := by decide

/-- C6 amended: re-running the grounding remap on an already-grounded
branch list keeps the ground node `0` (the first voltage-source branch's
second terminal stays `0`), but shifts every other node id `x` to `x + 1`;
it is a no-op only in the degenerate case where `0` is the sole node id. -/
theorem C6_amended_reground_keeps_ground_shifts_rest (bs : List Branch) (b : Branch)
    (h : bs.find? isVoltageSourceBranch = some b) :
    (regroundBranches bs).find? isVoltageSourceBranch =
      some (groundRemapBranch b.n2 b) ∧
    (groundRemapBranch b.n2 b).n2 = 0 ∧
    regroundBranches (regroundBranches bs) =
      (regroundBranches bs).map (groundRemapBranch 0) := by
  have hn2 : (groundRemapBranch b.n2 b).n2 = 0 := by
    simp [groundRemapBranch, groundRemapNode]
  have hfind : (regroundBranches bs).find? isVoltageSourceBranch =
      some (groundRemapBranch b.n2 b) := by
    rw [regroundBranches_eq_map h,
      find?_map_of_pred_invariant (isVS_groundRemap b.n2), h]
    rfl
  refine ⟨hfind, hn2, ?_⟩
  rw [regroundBranches_eq_map hfind, hn2]

/-! ### Control-binding validity (claims C2 and C9) -/

/-- Predicates that ignore the terminals are preserved by the grounding
remap. -/
theorem countP_groundRemap (gnode : Nat) (bs : List Branch) (p : Branch → Bool)
    (hp : ∀ br, p (groundRemapBranch gnode br) = p br) :
    (bs.map (groundRemapBranch gnode)).countP p = bs.countP p := by
  rw [List.countP_map]
  exact List.countP_congr (fun br _ => by simp [Function.comp, hp br])

/-- In every circuit that completes `_init_netlist`, the check of lines
1460-1465 guarantees: every branch's `control_measure_label` is carried by
exactly one voltage-measured branch.  (Shared backbone of C2 and C9.) -/
theorem netlist_control_filter_one {g : Grid} {bs : List Branch} {br : Branch}
    (hnl : initNetlist g = some bs) (hbr : br ∈ bs) :
    (bs.filter (fun b =>
      b.measure_label == br.control_measure_label &&
      b.measure == MEAS_TYPE_VOLTAGE)).length = 1 := by
  cases hbb : buildBranches g with
  | none => rw [initNetlist, hbb] at hnl; exact absurd hnl (by simp)
  | some bs0 =>
      by_cases hcc : control_check bs0 = true
      · have hbs : bs = regroundBranches bs0 := by
          simp only [initNetlist, hbb, hcc, if_true] at hnl
          exact (Option.some_inj.1 hnl).symm
        subst hbs
        -- peel the grounding remap off both the membership and the count
        have main : ∀ (br0 : Branch), br0 ∈ bs0 →
            (bs0.filter (fun b =>
              b.measure_label == br0.control_measure_label &&
              b.measure == MEAS_TYPE_VOLTAGE)).length = 1 := by
          intro br0 hbr0
          have hone := List.all_eq_true.1 hcc br0 hbr0
          simpa using hone
        cases hfind : bs0.find? isVoltageSourceBranch with
        | none =>
            rw [regroundBranches_no_vs hfind] at hbr ⊢
            exact main br hbr
        | some b =>
            rw [regroundBranches_eq_map hfind] at hbr ⊢
            obtain ⟨br0, hbr0, rfl⟩ := List.mem_map.1 hbr
            have hlab : (groundRemapBranch b.n2 br0).control_measure_label =
                br0.control_measure_label := rfl
            rw [hlab, ← List.countP_eq_length_filter]
            rw [countP_groundRemap b.n2 bs0 (fun b =>
              b.measure_label == br0.control_measure_label &&
              b.measure == MEAS_TYPE_VOLTAGE) (fun x => rfl)]
            rw [List.countP_eq_length_filter]
            exact main br0 hbr0
      · simp only [initNetlist, hbb, if_neg hcc] at hnl
        exact absurd hnl (by simp)

/-- C2 amended: for every circuit marked valid, **every** branch's (in
particular every dependent-source branch's) `control_measure_label`
matches exactly one **voltage**-measured branch — regardless of the
dependent source's kind; the current-measurement binding of a CCCS/CCVS is
only asserted later, inside SPICE generation, not before. -/
theorem C2_amended_all_branches_bind_one_voltage_measurement (g : Grid)
    (br : Branch) (hv : circuitValid g = true) (hbr : br ∈ circuitBranches g) :
    ((circuitBranches g).filter (fun b =>
      b.measure_label == br.control_measure_label &&
      b.measure == MEAS_TYPE_VOLTAGE)).length = 1 := by
  have hsome : (initNetlist g).isSome = true := by
    simp only [circuitValid, Bool.and_eq_true] at hv
    exact hv.2
  obtain ⟨bs, hbs⟩ := Option.isSome_iff_exists.1 hsome
  have hcb : circuitBranches g = bs := by unfold circuitBranches; rw [hbs]; rfl
  rw [hcb] at hbr ⊢
  exact netlist_control_filter_one hbs hbr

/-- C9: in every valid circuit containing a branch whose
`control_measure_label` is `0` (the default value every non-dependent
branch carries), exactly one branch has a voltage measurement with
`measure_label = 0` — because the check of lines 1460-1465 runs over every
branch, not only dependent sources. -/
theorem C9_default_zero_control_label_forces_voltage_zero (g : Grid)
    (br : Branch) (hv : circuitValid g = true) (hbr : br ∈ circuitBranches g)
    (hc : br.control_measure_label = 0) :
    ((circuitBranches g).filter (fun b =>
      b.measure == MEAS_TYPE_VOLTAGE && b.measure_label == 0)).length = 1 := by
  have hsome : (initNetlist g).isSome = true := by
    simp only [circuitValid, Bool.and_eq_true] at hv
    exact hv.2
  obtain ⟨bs, hbs⟩ := Option.isSome_iff_exists.1 hsome
  have hcb : circuitBranches g = bs := by unfold circuitBranches; rw [hbs]; rfl
  rw [hcb] at hbr ⊢
  have := netlist_control_filter_one hbs hbr
  rw [hc] at this
  rw [← this]
  congr 1
  exact List.filter_congr (fun b _ => by
    simp only [Bool.and_comm])

/-! ### Concrete grids for counterexamples and witnesses -/

/-- A concrete 2×2 grid: a voltage source (left edge), a CCCS (right
edge) whose `control_measure_label` is 5, a top resistor carrying a
voltage measurement labelled 5 and a bottom resistor carrying a voltage
measurement labelled 0. -/
def gC2ex : Grid :=
  { m := 2, n := 2
    hasV := fun _ _ => true
    hasH := fun _ _ => true
    vtype := fun i j => if (i, j) = (0, 0) then TYPE_VOLTAGE_SOURCE else TYPE_CCCS
    htype := fun _ _ => TYPE_RESISTOR
    vlabel := fun _ _ => 1
    hlabel := fun i _ => if i = 0 then 1 else 2
    vvalue := fun _ _ => 5
    hvalue := fun _ _ => 7
    vunit := fun _ _ => 0
    hunit := fun _ _ => 0
    vdir := fun _ _ => false
    hdir := fun _ _ => false
    vmeas := fun _ _ => MEAS_TYPE_NONE
    hmeas := fun _ _ => MEAS_TYPE_VOLTAGE
    vmeasLabel := fun i j => if (i, j) = (0, 1) then -1 else 0
    hmeasLabel := fun i _ => if i = 0 then 5 else 0
    vmeasDir := fun _ _ => false
    hmeasDir := fun _ _ => false
    vctrl := fun i j => if (i, j) = (0, 1) then 5 else 0
    hctrl := fun _ _ => 0 }

/-- C2 counterexample: `gC2ex` is marked valid, contains a CCCS whose
`control_measure_label` (5) matches **zero** branches carrying a current
measurement — the required kind for a CCCS — so the claimed invariant does
not hold on valid circuits (the pre-SPICE check only looks for voltage
measurements). -/
theorem C2_counterexample_valid_cccs_no_current_match :
    circuitValid gC2ex = true ∧
    (circuitBranches gC2ex).countP
      (fun b => b.type == TYPE_CCCS && b.control_measure_label == 5) = 1 ∧
    (circuitBranches gC2ex).countP
      (fun b => b.measure_label == 5 && b.measure == MEAS_TYPE_CURRENT) = 0 := by
  refine ⟨by decide, by decide, by decide⟩

/-- The voltage-source branch of `circuitBranches gC2ex` (after
grounding). -/
def brC2vs : Branch :=
  { n1 := 1, n2 := 0, type := TYPE_VOLTAGE_SOURCE, label := 1, value := 5,
    value_unit := 0, measure := MEAS_TYPE_NONE, measure_label := 0,
    meas_comp_same_direction := true, control_measure_label := 0, order := 1 }

/-- The CCCS branch of `circuitBranches gC2ex` (after grounding). -/
def brC2cccs : Branch :=
  { n1 := 2, n2 := 4, type := TYPE_CCCS, label := 1, value := 5,
    value_unit := 0, measure := MEAS_TYPE_NONE, measure_label := -1,
    meas_comp_same_direction := true, control_measure_label := 5, order := 2 }

theorem C2_amended_witness :
    ((circuitBranches gC2ex).filter (fun b =>
      b.measure_label == brC2cccs.control_measure_label &&
      b.measure == MEAS_TYPE_VOLTAGE)).length = 1 :=
  C2_amended_all_branches_bind_one_voltage_measurement gC2ex brC2cccs
    (by decide) (by decide)

theorem C9_witness :
    ((circuitBranches gC2ex).filter (fun b =>
      b.measure == MEAS_TYPE_VOLTAGE && b.measure_label == 0)).length = 1 :=
  C9_default_zero_control_label_forces_voltage_zero gC2ex brC2vs
    (by decide) (by decide) (by decide)

theorem C4_witness :
    (gC2ex.degree 0 0 = 0 ∨ 2 ≤ gC2ex.degree 0 0) ∧ circuitValid gC2ex = true :=
  ⟨(C4_degree_zero_or_at_least_two gC2ex).1 (by decide) 0 0 (by decide) (by decide),
   by decide⟩

/-- The branch list `buildBranches` assembles for `gC2ex` before the
grounding remap. -/
def preC2bs : List Branch :=
  [{ n1 := 0, n2 := 1, type := TYPE_RESISTOR, label := 1, value := 7,
     value_unit := 0, measure := MEAS_TYPE_VOLTAGE, measure_label := 5,
     meas_comp_same_direction := true, control_measure_label := 0, order := 0 },
   { n1 := 0, n2 := 2, type := TYPE_VOLTAGE_SOURCE, label := 1, value := 5,
     value_unit := 0, measure := MEAS_TYPE_NONE, measure_label := 0,
     meas_comp_same_direction := true, control_measure_label := 0, order := 1 },
   { n1 := 1, n2 := 3, type := TYPE_CCCS, label := 1, value := 5,
     value_unit := 0, measure := MEAS_TYPE_NONE, measure_label := -1,
     meas_comp_same_direction := true, control_measure_label := 5, order := 2 },
   { n1 := 2, n2 := 3, type := TYPE_RESISTOR, label := 2, value := 7,
     value_unit := 0, measure := MEAS_TYPE_VOLTAGE, measure_label := 0,
     meas_comp_same_direction := true, control_measure_label := 0, order := 3 }]

/-- The first voltage-source branch of `preC2bs` in scan order; its second
terminal (node 2) becomes ground. -/
def preC2vs : Branch :=
  { n1 := 0, n2 := 2, type := TYPE_VOLTAGE_SOURCE, label := 1, value := 5,
    value_unit := 0, measure := MEAS_TYPE_NONE, measure_label := 0,
    meas_comp_same_direction := true, control_measure_label := 0, order := 1 }

theorem C5_witness :
    initNetlist gC2ex = some (preC2bs.map (groundRemapBranch preC2vs.n2)) :=
  (C5_reground_first_vs_negative_terminal gC2ex preC2bs (by decide) (by decide)).1
    preC2vs (by decide)

/-- The voltage-source branch of `preGroundBranchesEx`. -/
def preGroundVsEx : Branch :=
  { n1 := 0, n2 := 1, type := TYPE_VOLTAGE_SOURCE, label := 1, value := 5,
    value_unit := 0, measure := MEAS_TYPE_NONE, measure_label := 0,
    meas_comp_same_direction := true, control_measure_label := 0, order := 0 }

theorem C6_amended_witness :
    (regroundBranches preGroundBranchesEx).find? isVoltageSourceBranch =
      some (groundRemapBranch preGroundVsEx.n2 preGroundVsEx) ∧
    (groundRemapBranch preGroundVsEx.n2 preGroundVsEx).n2 = 0 ∧
    regroundBranches (regroundBranches preGroundBranchesEx) =
      (regroundBranches preGroundBranchesEx).map (groundRemapBranch 0) :=
  C6_amended_reground_keeps_ground_shifts_rest preGroundBranchesEx preGroundVsEx
    (by decide)

/-- A 2×2 grid whose left vertical edge is an unmeasured `short` (used to
exercise the connectivity resolver). -/
def gC3w : Grid :=
  { m := 2, n := 2
    hasV := fun _ _ => true
    hasH := fun _ _ => true
    vtype := fun i j => if (i, j) = (0, 0) then TYPE_SHORT else TYPE_RESISTOR
    htype := fun _ _ => TYPE_RESISTOR
    vlabel := fun _ _ => 1
    hlabel := fun _ _ => 1
    vvalue := fun _ _ => 5
    hvalue := fun _ _ => 5
    vunit := fun _ _ => 0
    hunit := fun _ _ => 0
    vdir := fun _ _ => false
    hdir := fun _ _ => false
    vmeas := fun _ _ => MEAS_TYPE_NONE
    hmeas := fun _ _ => MEAS_TYPE_NONE
    vmeasLabel := fun _ _ => 0
    hmeasLabel := fun _ _ => 0
    vmeasDir := fun _ _ => false
    hmeasDir := fun _ _ => false
    vctrl := fun _ _ => 0
    hctrl := fun _ _ => 0 }

theorem C3_witness :
    (gC3w.gridNodes (0, 0) = gC3w.gridNodes (1, 0) ↔ gC3w.ShortReach (0, 0) (1, 0)) ∧
    gC3w.gridNodes (0, 0) = gC3w.gridNodes (1, 0) :=
  have hiff := C3_same_node_id_iff_unmeasured_short_path gC3w (0, 0) (1, 0)
    (by decide) (by decide)
  ⟨hiff, hiff.mpr (Relation.ReflTransGen.single (by decide))⟩

/-! ### Op-amp SPICE expansion (`Circuit._to_SPICE`, lines 1715-1793; claim C7)

The op-amp arms of the per-branch SPICE loop: the `TYPE_OPAMP_INTEGRATOR`
arm appends the R-C feedback template to the accumulated netlist string
`spice_str`, the arm for the five remaining roles logs a warning and
appends a single high-gain dependent voltage source.  When the branch
requests a current measurement, the source rewires the just-emitted
dependent source to the ammeter mid-node with `spice_str.replace` applied
to the **whole accumulated netlist** (lines 1771 and 1793); `pyReplace`
embeds Python's `str.replace` (all non-overlapping occurrences, scanned
left to right; the patterns used here are never empty) character-wise.
`label_num` stands for the numeric part of the device name and
`vmeas_counter` for the running ammeter counter, returned updated. -/

/-- `leadsWith pat s` holds when `pat` occurs at the very start of `s`. -/
def leadsWith : List Char → List Char → Bool
  | [], _ => true
  | _ :: _, [] => false
  | c :: p, d :: s => c == d && leadsWith p s

/-- The replacement scan of Python's `str.replace`: at each position,
either the pattern matches and is replaced (the scan resumes after the
matched block), or one character is copied.  The fuel argument is the
string length, consumed one character or one match per step. -/
def replaceAux (pat rep : List Char) : Nat → List Char → List Char
  | _, [] => []
  | 0, s => s
  | fuel + 1, c :: rest =>
      if pat ≠ [] ∧ leadsWith pat (c :: rest) = true then
        rep ++ replaceAux pat rep fuel (rest.drop (pat.length - 1))
      else c :: replaceAux pat rep fuel rest

def pyReplace (s pat rep : String) : String :=
  ⟨replaceAux pat.data rep.data s.data.length s.data⟩

theorem leadsWith_append_self (p b : List Char) : leadsWith p (p ++ b) = true := by
  induction p with
  | nil => rfl
  | cons c p' ih => simp [leadsWith, ih]

theorem replaceAux_id (pat rep s : List Char) :
    ∀ fuel : Nat, (∀ i, ¬ leadsWith pat (s.drop i) = true) →
      replaceAux pat rep fuel s = s := by
  induction s with
  | nil => intro fuel _; cases fuel <;> rfl
  | cons c rest ih =>
      intro fuel h
      cases fuel with
      | zero => rfl
      | succ f =>
          have h0 : ¬ (pat ≠ [] ∧ leadsWith pat (c :: rest) = true) := by
            rintro ⟨-, hl⟩
            exact h 0 (by simpa using hl)
          simp only [replaceAux]
          rw [if_neg h0]
          rw [ih f (fun i => by simpa using h (i + 1))]

theorem replaceAux_append_left (pat rep : List Char) (a : List Char) :
    ∀ (b : List Char) (fuel : Nat), a.length + b.length ≤ fuel →
      (∀ i, i < a.length → ¬ leadsWith pat ((a ++ b).drop i) = true) →
      replaceAux pat rep fuel (a ++ b) = a ++ replaceAux pat rep (fuel - a.length) b := by
  induction a with
  | nil => intro b fuel _ _; simp
  | cons c a' ih =>
      intro b fuel hf h
      cases fuel with
      | zero => simp at hf
      | succ f =>
          have h0 : ¬ (pat ≠ [] ∧ leadsWith pat (c :: (a' ++ b)) = true) := by
            rintro ⟨-, hl⟩
            exact h 0 (by simp) (by simpa using hl)
          rw [List.cons_append]
          simp only [replaceAux]
          rw [if_neg h0]
          rw [ih b f (by simp at hf ⊢; omega)
            (fun i hi => by simpa using h (i + 1) (by simp; omega))]
          simp [Nat.succ_sub_succ]

theorem replaceAux_head_match (pat rep b : List Char) (hp : pat ≠ []) (fuel : Nat)
    (hf : 1 ≤ fuel) :
    replaceAux pat rep fuel (pat ++ b) = rep ++ replaceAux pat rep (fuel - 1) b := by
  cases fuel with
  | zero => omega
  | succ f =>
      cases pat with
      | nil => exact absurd rfl hp
      | cons c p' =>
          rw [List.cons_append]
          simp only [replaceAux]
          rw [if_pos ⟨by simp, by rw [← List.cons_append]; exact leadsWith_append_self _ b⟩]
          simp [Nat.succ_sub_succ, List.drop_left]

theorem drop_append_cancel (l₁ l₂ : List Char) (k : Nat) :
    (l₁ ++ l₂).drop (l₁.length + k) = l₂.drop k := by
  induction l₁ with
  | nil => simp
  | cons c t ih => simp [Nat.succ_add, ih]

/-- When the pattern occurs exactly once, at the junction between `P` and
`tail`, the replacement rewrites that single occurrence and leaves the
rest of the string untouched. -/
theorem replaceAux_unique (pat rep P tail : List Char) (hp : pat ≠ [])
    (h : ∀ i, i ≤ (P ++ (pat ++ tail)).length →
      leadsWith pat ((P ++ (pat ++ tail)).drop i) = true → i = P.length) :
    replaceAux pat rep (P ++ (pat ++ tail)).length (P ++ (pat ++ tail)) =
      P ++ (rep ++ tail) := by
  have hpl : 1 ≤ pat.length := by
    cases pat with | nil => exact absurd rfl hp | cons c p' => simp
  rw [replaceAux_append_left pat rep P (pat ++ tail) (P ++ (pat ++ tail)).length
    (by simp) (fun i hi hl => by
      have := h i (by simp at hi ⊢; omega) hl
      omega)]
  have hlen : (P ++ (pat ++ tail)).length - P.length = pat.length + tail.length := by
    simp
  rw [hlen]
  rw [replaceAux_head_match pat rep tail hp _ (by omega)]
  rw [replaceAux_id pat rep tail _ (fun i hl => by
    by_cases hit : i ≤ tail.length
    · have hdrop : (P ++ (pat ++ tail)).drop (P.length + (pat.length + i)) =
          tail.drop i := by
        rw [drop_append_cancel, drop_append_cancel]
      have := h (P.length + (pat.length + i)) (by simp; omega) (by rw [hdrop]; exact hl)
      omega
    · have hnil : tail.drop i = [] := List.drop_eq_nil_of_le (by omega)
      rw [hnil] at hl
      cases pat with
      | nil => exact absurd rfl hp
      | cons c p' => simp [leadsWith] at hl)]

theorem pyReplace_unique (P pat tail rep : String) (hp : pat.data ≠ [])
    (h : ∀ i, i ≤ (P ++ pat ++ tail).data.length →
      leadsWith pat.data ((P ++ pat ++ tail).data.drop i) = true → i = P.data.length) :
    pyReplace (P ++ pat ++ tail) pat rep = P ++ rep ++ tail := by
  have hd : (P ++ pat ++ tail).data = P.data ++ (pat.data ++ tail.data) := by
    simp [String.data_append]
  apply String.ext
  show replaceAux pat.data rep.data (P ++ pat ++ tail).data.length (P ++ pat ++ tail).data
      = (P ++ rep ++ tail).data
  rw [hd] at h ⊢
  rw [replaceAux_unique pat.data rep.data P.data tail.data hp h]
  simp [String.data_append]

/-- One op-amp step of the SPICE loop: the accumulated netlist `spice_str`
in, the extended netlist and updated ammeter counter out (lines
1715-1793; non-op-amp types leave the state unchanged here, their arms
are earlier in the loop). -/
def opampSpiceStep (spice_str : String) (br : Branch) (use_values : Bool)
    (label_num vmeas_counter : Nat) : String × Nat :=
  if br.type = TYPE_OPAMP_INTEGRATOR then
    let time_constant : Int := if use_values then br.value else 1
    let resistor_value : Int :=
      if time_constant > 10 then max 1 (Int.fdiv time_constant 10) else 1
    let capacitor_value : Int :=
      if time_constant > resistor_value then max 1 (time_constant - resistor_value) else 1
    let opamp_num := toString label_num
    let inverting_node := toString (30 + label_num)
    let r_value_str := if use_values then toString resistor_value else "<Empty>"
    let c_value_str := if use_values then toString capacitor_value ++ "e-6" else "<Empty>"
    let differential_gain := if use_values then "100000" else "Ad"
    let s := spice_str ++ "* Integrator template: R-C feedback with op-amp\n" ++
      "Rint" ++ opamp_num ++ " " ++ toString br.n1 ++ " " ++ inverting_node ++ " " ++
      r_value_str ++ "\n" ++
      "Cint" ++ opamp_num ++ " " ++ toString br.n2 ++ " " ++ inverting_node ++ " " ++
      c_value_str ++ "\n" ++
      "Eint" ++ opamp_num ++ " " ++ toString br.n2 ++ " 0 0 " ++ inverting_node ++ " " ++
      differential_gain ++ "\n"
    if br.measure = MEAS_TYPE_CURRENT then
      (pyReplace
        (s ++ "VI" ++ toString (vmeas_counter + 1) ++ " " ++ ("Nmeas" ++ opamp_num) ++
          " " ++ toString br.n2 ++ " 0\n")
        ("Eint" ++ opamp_num ++ " " ++ toString br.n2 ++ " 0 0")
        ("Eint" ++ opamp_num ++ " " ++ ("Nmeas" ++ opamp_num) ++ " 0 0"),
       vmeas_counter + 1)
    else (s, vmeas_counter)
  else if br.type ∈ [TYPE_OPAMP_INVERTING, TYPE_OPAMP_NONINVERTING, TYPE_OPAMP_BUFFER,
      TYPE_OPAMP_DIFFERENTIATOR, TYPE_OPAMP_SUMMING] then
    if br.measure = MEAS_TYPE_CURRENT then
      (pyReplace
        (spice_str ++ "* Fallback: Simple op-amp (should be integrator)\n" ++
          "E" ++ toString label_num ++ " " ++ toString br.n2 ++ " 0 0" ++ " " ++
          toString br.n1 ++ " " ++ (if use_values then toString br.value else "Ad") ++ "\n" ++
          "VI" ++ toString (vmeas_counter + 1) ++ " " ++
          ("N" ++ toString br.n1 ++ toString br.n2) ++ " " ++ toString br.n2 ++ " 0\n")
        ("E" ++ toString label_num ++ " " ++ toString br.n2 ++ " 0 0")
        ("E" ++ toString label_num ++ " " ++ ("N" ++ toString br.n1 ++ toString br.n2) ++
          " 0 0"),
       vmeas_counter + 1)
    else
      (spice_str ++ "* Fallback: Simple op-amp (should be integrator)\n" ++
        "E" ++ toString label_num ++ " " ++ toString br.n2 ++ " 0 0" ++ " " ++
        toString br.n1 ++ " " ++ (if use_values then toString br.value else "Ad") ++ "\n",
       vmeas_counter)
  else (spice_str, vmeas_counter)

/-- An inverting op-amp branch with no measurement, used to probe the
fallback arm. -/
def brC7inv : Branch :=
  { n1 := 1, n2 := 2, type := TYPE_OPAMP_INVERTING, label := 1, value := 5,
    value_unit := 0, measure := MEAS_TYPE_NONE, measure_label := 0,
    meas_comp_same_direction := true, control_measure_label := 0, order := 0 }

/-- An inverting op-amp branch with a current measurement, used to probe
the ammeter-retarget path of the fallback arm. -/
def brC7w : Branch :=
  { n1 := 1, n2 := 2, type := TYPE_OPAMP_INVERTING, label := 1, value := 5,
    value_unit := 0, measure := MEAS_TYPE_CURRENT, measure_label := 0,
    meas_comp_same_direction := true, control_measure_label := 0, order := 0 }

/-- C7 counterexample: the SPICE text appended for a non-integrator
op-amp role is **not** the integrator expansion — at the same terminals,
label and settings, the fallback arm emits a single dependent voltage
source while the integrator arm emits the resistor + capacitor +
dependent-source template. -/
theorem C7_counterexample_fallback_not_integrator_expansion :
    opampSpiceStep "" brC7inv false 1 0 ≠
      opampSpiceStep "" { brC7inv with type := TYPE_OPAMP_INTEGRATOR } false 1 0 := by
  decide

/-- C7 amended: for every branch whose component type is a non-integrator
op-amp role (inverting, non-inverting, buffer, differentiator, summing),
the SPICE generator appends a fallback comment plus a **single** high-gain
dependent voltage source `E{label} n2 0 0 n1 gain` to the accumulated
netlist — never the three-device integrator expansion; and when the
branch requests a current measurement it additionally appends the ammeter
line and rewires that dependent source to the measurement mid-node: the
whole-netlist `str.replace` touches exactly the just-emitted line
whenever the device text occurs nowhere else in the netlist (the
hypothesis of the second part). -/
theorem C7_amended_fallback_single_dependent_source (br : Branch)
    (u : Bool) (label_num vmeas_counter : Nat) (spice_str : String)
    (hty : br.type ∈ [TYPE_OPAMP_INVERTING, TYPE_OPAMP_NONINVERTING, TYPE_OPAMP_BUFFER,
      TYPE_OPAMP_DIFFERENTIATOR, TYPE_OPAMP_SUMMING]) :
    (br.measure ≠ MEAS_TYPE_CURRENT →
      opampSpiceStep spice_str br u label_num vmeas_counter =
        (spice_str ++ "* Fallback: Simple op-amp (should be integrator)\n" ++
          "E" ++ toString label_num ++ " " ++ toString br.n2 ++ " 0 0" ++ " " ++
          toString br.n1 ++ " " ++ (if u then toString br.value else "Ad") ++ "\n",
         vmeas_counter)) ∧
    (br.measure = MEAS_TYPE_CURRENT →
      (∀ i, i ≤ ((spice_str ++ "* Fallback: Simple op-amp (should be integrator)\n") ++
          ("E" ++ toString label_num ++ " " ++ toString br.n2 ++ " 0 0") ++
          (" " ++ toString br.n1 ++ " " ++ (if u then toString br.value else "Ad") ++ "\n" ++
           "VI" ++ toString (vmeas_counter + 1) ++ " " ++
           ("N" ++ toString br.n1 ++ toString br.n2) ++ " " ++ toString br.n2 ++
           " 0\n")).data.length →
        leadsWith ("E" ++ toString label_num ++ " " ++ toString br.n2 ++ " 0 0").data
          (((spice_str ++ "* Fallback: Simple op-amp (should be integrator)\n") ++
            ("E" ++ toString label_num ++ " " ++ toString br.n2 ++ " 0 0") ++
            (" " ++ toString br.n1 ++ " " ++ (if u then toString br.value else "Ad") ++ "\n" ++
             "VI" ++ toString (vmeas_counter + 1) ++ " " ++
             ("N" ++ toString br.n1 ++ toString br.n2) ++ " " ++ toString br.n2 ++
             " 0\n")).data.drop i) = true →
        i = (spice_str ++
          "* Fallback: Simple op-amp (should be integrator)\n").data.length) →
      opampSpiceStep spice_str br u label_num vmeas_counter =
        ((spice_str ++ "* Fallback: Simple op-amp (should be integrator)\n") ++
         ("E" ++ toString label_num ++ " " ++ ("N" ++ toString br.n1 ++ toString br.n2) ++
          " 0 0") ++
         (" " ++ toString br.n1 ++ " " ++ (if u then toString br.value else "Ad") ++ "\n" ++
          "VI" ++ toString (vmeas_counter + 1) ++ " " ++
          ("N" ++ toString br.n1 ++ toString br.n2) ++ " " ++ toString br.n2 ++ " 0\n"),
         vmeas_counter + 1)) := by
  have hne : br.type ≠ TYPE_OPAMP_INTEGRATOR := by
    intro hI
    rw [hI] at hty
    exact absurd hty (by decide)
  constructor
  · intro hms
    unfold opampSpiceStep
    rw [if_neg hne, if_pos hty, if_neg hms]
  · intro hms huniq
    have h40 : (" 0 0" : String).data.length = 4 := rfl
    have hp' : ("E" ++ toString label_num ++ " " ++ toString br.n2 ++ " 0 0").data ≠ [] := by
      intro hnil
      have hlen := congrArg List.length hnil
      simp only [String.data_append, List.length_append, List.length_nil] at hlen
      rw [h40] at hlen
      omega
    have hgroup : spice_str ++ "* Fallback: Simple op-amp (should be integrator)\n" ++
        "E" ++ toString label_num ++ " " ++ toString br.n2 ++ " 0 0" ++ " " ++
        toString br.n1 ++ " " ++ (if u then toString br.value else "Ad") ++ "\n" ++
        "VI" ++ toString (vmeas_counter + 1) ++ " " ++
        ("N" ++ toString br.n1 ++ toString br.n2) ++ " " ++ toString br.n2 ++ " 0\n" =
        (spice_str ++ "* Fallback: Simple op-amp (should be integrator)\n") ++
        ("E" ++ toString label_num ++ " " ++ toString br.n2 ++ " 0 0") ++
        (" " ++ toString br.n1 ++ " " ++ (if u then toString br.value else "Ad") ++ "\n" ++
         "VI" ++ toString (vmeas_counter + 1) ++ " " ++
         ("N" ++ toString br.n1 ++ toString br.n2) ++ " " ++ toString br.n2 ++ " 0\n") := by
      apply String.ext
      simp [String.data_append, List.append_assoc]
    unfold opampSpiceStep
    rw [if_neg hne, if_pos hty, if_pos hms, hgroup,
      pyReplace_unique (spice_str ++ "* Fallback: Simple op-amp (should be integrator)\n")
        ("E" ++ toString label_num ++ " " ++ toString br.n2 ++ " 0 0")
        (" " ++ toString br.n1 ++ " " ++ (if u then toString br.value else "Ad") ++ "\n" ++
         "VI" ++ toString (vmeas_counter + 1) ++ " " ++
         ("N" ++ toString br.n1 ++ toString br.n2) ++ " " ++ toString br.n2 ++ " 0\n")
        ("E" ++ toString label_num ++ " " ++ ("N" ++ toString br.n1 ++ toString br.n2) ++
          " 0 0")
        hp' huniq]

/-- C7 amended, exercised at a concrete current-measured inverting
op-amp branch: the fallback E line is emitted once and rewired to the
ammeter mid-node `N12`, and the ammeter line follows it. -/
theorem C7_amended_witness :
    brC7w.type ∈ [TYPE_OPAMP_INVERTING, TYPE_OPAMP_NONINVERTING, TYPE_OPAMP_BUFFER,
      TYPE_OPAMP_DIFFERENTIATOR, TYPE_OPAMP_SUMMING] ∧
    brC7w.measure = MEAS_TYPE_CURRENT ∧
    opampSpiceStep "" brC7w false 1 0 =
      ("* Fallback: Simple op-amp (should be integrator)\nE1 N12 0 0 1 Ad\nVI1 N12 2 0\n",
       1) :=
  ⟨by decide, rfl,
    (C7_amended_fallback_single_dependent_source brC7w false 1 0 "" (by decide)).2
      rfl (by decide)⟩

/-! ### The serialized stat record (`generate.py`, `compute_stat_info`,
lines 39-60; claim C8) -/

structure StatInfo where
  num_nodes : Nat
  num_branches : Nat
  num_resistors : Nat
  num_capacitors : Nat
  num_inductors : Nat
  num_voltage_sources : Nat
  num_current_sources : Nat
  num_controlled_sources : Nat
  num_shorts : Nat
  num_voltage_measurements : Nat
  num_current_measurements : Nat
  num_opamps : Nat
deriving DecidableEq

/-- `compute_stat_info` from `generate.py` (the per-role op-amp counters
are omitted; `nodes` stands for `circ.nodes`).  Note the two measurement
counters filter on `br['type'] == TYPE_RESISTOR` **and** the measurement
kind (lines 51-52). -/
def compute_stat_info (nodes : List Nat) (branches : List Branch) : StatInfo :=
  { num_nodes := nodes.length
    num_branches := branches.length
    num_resistors := (branches.filter (fun br => br.type == TYPE_RESISTOR)).length
    num_capacitors := (branches.filter (fun br => br.type == TYPE_CAPACITOR)).length
    num_inductors := (branches.filter (fun br => br.type == TYPE_INDUCTOR)).length
    num_voltage_sources := (branches.filter (fun br => br.type == TYPE_VOLTAGE_SOURCE)).length
    num_current_sources := (branches.filter (fun br => br.type == TYPE_CURRENT_SOURCE)).length
    num_controlled_sources := (branches.filter (fun br => br.type ∈ depSourceTypes)).length
    num_shorts := (branches.filter (fun br => br.type == TYPE_SHORT)).length
    num_voltage_measurements := (branches.filter (fun br =>
      br.type == TYPE_RESISTOR && br.measure == MEAS_TYPE_VOLTAGE)).length
    num_current_measurements := (branches.filter (fun br =>
      br.type == TYPE_RESISTOR && br.measure == MEAS_TYPE_CURRENT)).length
    num_opamps := (branches.filter (fun br =>
      br.type ∈ [TYPE_OPAMP_INVERTING, TYPE_OPAMP_NONINVERTING, TYPE_OPAMP_BUFFER,
        TYPE_OPAMP_INTEGRATOR, TYPE_OPAMP_DIFFERENTIATOR, TYPE_OPAMP_SUMMING])).length }

/-- A 2×2 grid whose right vertical edge is a capacitor carrying the
(unique) voltage measurement labelled 0; the measurement is on a
non-resistor branch. -/
def gC8ex : Grid :=
  { m := 2, n := 2
    hasV := fun _ _ => true
    hasH := fun _ _ => true
    vtype := fun i j => if (i, j) = (0, 0) then TYPE_VOLTAGE_SOURCE else TYPE_CAPACITOR
    htype := fun _ _ => TYPE_RESISTOR
    vlabel := fun _ _ => 1
    hlabel := fun i _ => if i = 0 then 1 else 2
    vvalue := fun _ _ => 5
    hvalue := fun _ _ => 7
    vunit := fun _ _ => 0
    hunit := fun _ _ => 0
    vdir := fun _ _ => false
    hdir := fun _ _ => false
    vmeas := fun i j => if (i, j) = (0, 1) then MEAS_TYPE_VOLTAGE else MEAS_TYPE_NONE
    hmeas := fun _ _ => MEAS_TYPE_NONE
    vmeasLabel := fun _ _ => 0
    hmeasLabel := fun _ _ => 0
    vmeasDir := fun _ _ => false
    hmeasDir := fun _ _ => false
    vctrl := fun _ _ => 0
    hctrl := fun _ _ => 0 }

/-- C8 counterexample: `gC8ex` generates successfully (it is valid), its
final branch list contains exactly one voltage-measured branch (a
capacitor), yet the stat record reports `num_voltage_measurements = 0`
because the counter only looks at resistor branches. -/
theorem C8_counterexample_capacitor_measurement_not_counted :
    circuitValid gC8ex = true ∧
    (compute_stat_info [] (circuitBranches gC8ex)).num_voltage_measurements = 0 ∧
    (circuitBranches gC8ex).countP (fun b => b.measure == MEAS_TYPE_VOLTAGE) = 1 := by
  refine ⟨by decide, by decide, by decide⟩

/-- C8 amended: the stat record's per-measurement-kind counters equal the
number of **resistor** branches carrying that measurement kind; they never
exceed, and only under the extra assumption that every measured branch is
a resistor do they equal, the total number of branches carrying that
measurement kind. -/
theorem C8_amended_stat_counts_resistor_measurements_only
    (nodes : List Nat) (bs : List Branch) :
    (compute_stat_info nodes bs).num_voltage_measurements =
      (bs.filter (fun b => b.type == TYPE_RESISTOR && b.measure == MEAS_TYPE_VOLTAGE)).length ∧
    (compute_stat_info nodes bs).num_current_measurements =
      (bs.filter (fun b => b.type == TYPE_RESISTOR && b.measure == MEAS_TYPE_CURRENT)).length ∧
    (compute_stat_info nodes bs).num_voltage_measurements ≤
      bs.countP (fun b => b.measure == MEAS_TYPE_VOLTAGE) ∧
    (compute_stat_info nodes bs).num_current_measurements ≤
      bs.countP (fun b => b.measure == MEAS_TYPE_CURRENT) ∧
    ((∀ br ∈ bs, br.measure ≠ MEAS_TYPE_NONE → br.type = TYPE_RESISTOR) →
      (compute_stat_info nodes bs).num_voltage_measurements =
        bs.countP (fun b => b.measure == MEAS_TYPE_VOLTAGE) ∧
      (compute_stat_info nodes bs).num_current_measurements =
        bs.countP (fun b => b.measure == MEAS_TYPE_CURRENT)) := by
  refine ⟨rfl, rfl, ?_, ?_, ?_⟩
  · rw [show (compute_stat_info nodes bs).num_voltage_measurements =
      bs.countP (fun b => b.type == TYPE_RESISTOR && b.measure == MEAS_TYPE_VOLTAGE) from
      (List.countP_eq_length_filter _ _).symm]
    exact List.countP_mono_left (fun b _ hb => by
      simp only [Bool.and_eq_true] at hb; exact hb.2)
  · rw [show (compute_stat_info nodes bs).num_current_measurements =
      bs.countP (fun b => b.type == TYPE_RESISTOR && b.measure == MEAS_TYPE_CURRENT) from
      (List.countP_eq_length_filter _ _).symm]
    exact List.countP_mono_left (fun b _ hb => by
      simp only [Bool.and_eq_true] at hb; exact hb.2)
  · intro hall
    constructor
    · rw [show (compute_stat_info nodes bs).num_voltage_measurements =
        bs.countP (fun b => b.type == TYPE_RESISTOR && b.measure == MEAS_TYPE_VOLTAGE) from
        (List.countP_eq_length_filter _ _).symm]
      refine List.countP_congr (fun b hb => ?_)
      by_cases hm : b.measure = MEAS_TYPE_VOLTAGE
      · have ht : b.type = TYPE_RESISTOR := hall b hb (by rw [hm]; decide)
        simp [hm, ht]
      · simp [hm]
    · rw [show (compute_stat_info nodes bs).num_current_measurements =
        bs.countP (fun b => b.type == TYPE_RESISTOR && b.measure == MEAS_TYPE_CURRENT) from
        (List.countP_eq_length_filter _ _).symm]
      refine List.countP_congr (fun b hb => ?_)
      by_cases hm : b.measure = MEAS_TYPE_CURRENT
      · have ht : b.type = TYPE_RESISTOR := hall b hb (by rw [hm]; decide)
        simp [hm, ht]
      · simp [hm]

theorem C8_amended_witness :
    (compute_stat_info [] (circuitBranches gC2ex)).num_voltage_measurements =
      (circuitBranches gC2ex).countP (fun b => b.measure == MEAS_TYPE_VOLTAGE) ∧
    (compute_stat_info [] (circuitBranches gC2ex)).num_current_measurements =
      (circuitBranches gC2ex).countP (fun b => b.measure == MEAS_TYPE_CURRENT) :=
  (C8_amended_stat_counts_resistor_measurements_only [] (circuitBranches gC2ex)).2.2.2.2
    (by decide)

/-! ### Edge references and per-edge accessors

`(true, i, j)` refers to the vertical edge `v[i][j]`, `(false, i, j)` to
the horizontal edge `h[i][j]`.  These drive the embedding of the
`gen_circuit` rewrite passes (current-source conversion, voltage-source
enforcement, relabeling, control binding), which act on whole edge
arrays. -/

abbrev EdgeRef : Type := Bool × Nat × Nat

def Grid.etype (g : Grid) (e : EdgeRef) : Nat :=
  if e.1 then g.vtype e.2.1 e.2.2 else g.htype e.2.1 e.2.2

def Grid.epresent (g : Grid) (e : EdgeRef) : Bool :=
  if e.1 then g.hasV e.2.1 e.2.2 else g.hasH e.2.1 e.2.2

def Grid.emeas (g : Grid) (e : EdgeRef) : Nat :=
  if e.1 then g.vmeas e.2.1 e.2.2 else g.hmeas e.2.1 e.2.2

def Grid.emeasLabel (g : Grid) (e : EdgeRef) : Int :=
  if e.1 then g.vmeasLabel e.2.1 e.2.2 else g.hmeasLabel e.2.1 e.2.2

def Grid.ectrl (g : Grid) (e : EdgeRef) : Int :=
  if e.1 then g.vctrl e.2.1 e.2.2 else g.hctrl e.2.1 e.2.2

/-- The (at most two) edges the netlist scan considers at cell `(i, j)`:
the horizontal edge first, then the vertical one. -/
def cellEdges (g : Grid) (c : Nat × Nat) : List EdgeRef :=
  (if c.2 < g.n - 1 then [((false, c.1, c.2) : EdgeRef)] else []) ++
  (if c.1 < g.m - 1 then [((true, c.1, c.2) : EdgeRef)] else [])

/-- All edge positions of the grid, in the netlist scan order. -/
def Grid.allEdges (g : Grid) : List EdgeRef := g.cells.flatMap (cellEdges g)

theorem mem_cellEdges {g : Grid} {c : Nat × Nat} {e : EdgeRef} :
    e ∈ cellEdges g c ↔
      (e = (false, c.1, c.2) ∧ c.2 < g.n - 1) ∨ (e = (true, c.1, c.2) ∧ c.1 < g.m - 1) := by
  unfold cellEdges
  by_cases h2 : c.2 < g.n - 1 <;> by_cases h1 : c.1 < g.m - 1 <;>
    simp [h1, h2]

theorem mem_allEdges {g : Grid} {e : EdgeRef} :
    e ∈ g.allEdges ↔
      (e.1 = true ∧ e.2.1 < g.m - 1 ∧ e.2.2 < g.n) ∨
      (e.1 = false ∧ e.2.1 < g.m ∧ e.2.2 < g.n - 1) := by
  unfold Grid.allEdges
  rw [List.mem_flatMap]
  constructor
  · rintro ⟨c, hc, he⟩
    obtain ⟨hc1, hc2⟩ := mem_idxList.1 hc
    rcases mem_cellEdges.1 he with ⟨rfl, h⟩ | ⟨rfl, h⟩
    · exact Or.inr ⟨rfl, hc1, h⟩
    · exact Or.inl ⟨rfl, h, hc2⟩
  · rintro (⟨h0, h1, h2⟩ | ⟨h0, h1, h2⟩)
    · refine ⟨(e.2.1, e.2.2), mem_idxList.2 ⟨by omega, h2⟩, ?_⟩
      refine mem_cellEdges.2 (Or.inr ⟨?_, h1⟩)
      cases e with
      | mk b p => cases p with
        | mk i j => simp only at h0 ⊢; rw [h0]
    · refine ⟨(e.2.1, e.2.2), mem_idxList.2 ⟨h1, by omega⟩, ?_⟩
      refine mem_cellEdges.2 (Or.inl ⟨?_, h2⟩)
      cases e with
      | mk b p => cases p with
        | mk i j => simp only at h0 ⊢; rw [h0]

theorem cellEdges_tag {g : Grid} {c : Nat × Nat} {e : EdgeRef}
    (he : e ∈ cellEdges g c) : e.2 = c := by
  rcases mem_cellEdges.1 he with ⟨rfl, _⟩ | ⟨rfl, _⟩ <;> rfl

theorem nodup_allEdges (g : Grid) : g.allEdges.Nodup := by
  unfold Grid.allEdges
  have hgen : ∀ cl : List (Nat × Nat), cl.Nodup → (cl.flatMap (cellEdges g)).Nodup := by
    intro cl
    induction cl with
    | nil => intro _; simp
    | cons c rest ih =>
        intro hnd
        rw [List.flatMap_cons]
        refine List.Nodup.append ?_ (ih (List.nodup_cons.1 hnd).2) ?_
        · unfold cellEdges
          by_cases h2 : c.2 < g.n - 1 <;> by_cases h1 : c.1 < g.m - 1 <;>
            simp [h1, h2, Prod.ext_iff]
        · intro e he he'
          obtain ⟨c', hc', hec'⟩ := List.mem_flatMap.1 he'
          have h1 := cellEdges_tag he
          have h2 := cellEdges_tag hec'
          refine (List.nodup_cons.1 hnd).1 ?_
          rw [h1.symm.trans h2]
          exact hc'
  exact hgen g.cells (nodup_idxList _ _)

/-! ### Branch counts and branch fields against the edge arrays -/

theorem processHedge_countP {g : Grid} {i j ord : Nat} {out : List Branch × Nat}
    {t : Nat} (ht : t ≠ TYPE_SHORT) (h : processHedge g i j ord = some out) :
    out.1.countP (fun b => b.type == t) =
      (if j < g.n - 1 then [((false, i, j) : EdgeRef)] else []).countP
        (fun e => g.epresent e && g.etype e == t) := by
  unfold processHedge at h
  by_cases hc : j < g.n - 1 ∧ g.hasH i j
  · rw [if_pos hc] at h
    rw [if_pos hc.1]
    by_cases hopen : g.htype i j = TYPE_OPEN
    · rw [if_pos hopen] at h; exact absurd h (by simp)
    · rw [if_neg hopen] at h
      by_cases hcol : g.gridNodes (i, j) = g.gridNodes (i, j + 1)
      · rw [if_pos hcol] at h
        by_cases hshort : g.htype i j ≠ TYPE_SHORT
        · rw [if_pos hshort] at h; exact absurd h (by simp)
        · rw [if_neg hshort] at h
          injection h with h'
          rw [← h']
          push_neg at hshort
          simp [Grid.epresent, Grid.etype, hshort, List.countP_cons, beq_iff_eq,
            Ne.symm ht]
      · rw [if_neg hcol] at h
        by_cases hconf : check_conflict_component_measure (g.htype i j) (g.hmeas i j) = true
        · rw [if_pos hconf] at h; exact absurd h (by simp)
        · rw [if_neg hconf] at h
          injection h with h'
          rw [← h']
          simp [hedgeBranch, Grid.epresent, Grid.etype, hc.2, List.countP_cons]
  · rw [if_neg hc] at h
    injection h with h'
    rw [← h']
    rcases Decidable.not_and_iff_or_not.1 hc with h2 | h2
    · rw [if_neg h2]; rfl
    · by_cases hj : j < g.n - 1
      · rw [if_pos hj]
        simp [Grid.epresent, Bool.eq_false_iff.2 h2, List.countP_cons]
      · rw [if_neg hj]; rfl

theorem processVedge_countP {g : Grid} {i j ord : Nat} {out : List Branch × Nat}
    {t : Nat} (ht : t ≠ TYPE_SHORT) (h : processVedge g i j ord = some out) :
    out.1.countP (fun b => b.type == t) =
      (if i < g.m - 1 then [((true, i, j) : EdgeRef)] else []).countP
        (fun e => g.epresent e && g.etype e == t) := by
  unfold processVedge at h
  by_cases hc : i < g.m - 1 ∧ g.hasV i j
  · rw [if_pos hc] at h
    rw [if_pos hc.1]
    by_cases hcol : g.gridNodes (i, j) = g.gridNodes (i + 1, j)
    · rw [if_pos hcol] at h
      by_cases hshort : g.vtype i j ≠ TYPE_SHORT
      · rw [if_pos hshort] at h; exact absurd h (by simp)
      · rw [if_neg hshort] at h
        injection h with h'
        rw [← h']
        push_neg at hshort
        simp [Grid.epresent, Grid.etype, hshort, List.countP_cons, beq_iff_eq,
          Ne.symm ht]
    · rw [if_neg hcol] at h
      by_cases hconf : check_conflict_component_measure (g.vtype i j) (g.vmeas i j) = true
      · rw [if_pos hconf] at h; exact absurd h (by simp)
      · rw [if_neg hconf] at h
        injection h with h'
        rw [← h']
        simp [vedgeBranch, Grid.epresent, Grid.etype, hc.2, List.countP_cons]
  · rw [if_neg hc] at h
    injection h with h'
    rw [← h']
    rcases Decidable.not_and_iff_or_not.1 hc with h2 | h2
    · rw [if_neg h2]; rfl
    · by_cases hi : i < g.m - 1
      · rw [if_pos hi]
        simp [Grid.epresent, Bool.eq_false_iff.2 h2, List.countP_cons]
      · rw [if_neg hi]; rfl

/-- For any non-`short` component type, the number of branches of that
type assembled by the netlist scan equals the number of present edges of
that type. -/
theorem buildAux_countP {g : Grid} {t : Nat} (ht : t ≠ TYPE_SHORT) :
    ∀ (cl : List (Nat × Nat)) (ord : Nat) (bs : List Branch),
      buildAux g cl ord = some bs →
      bs.countP (fun b => b.type == t) =
        (cl.flatMap (cellEdges g)).countP (fun e => g.epresent e && g.etype e == t) := by
  intro cl
  induction cl with
  | nil =>
      intro ord bs h
      injection h with h'
      rw [← h']; rfl
  | cons c rest ih =>
      intro ord bs h
      unfold buildAux at h
      cases hh : processHedge g c.1 c.2 ord with
      | none => rw [hh, Option.none_bind] at h; exact absurd h (by simp)
      | some out1 =>
          rw [hh, Option.some_bind] at h
          cases hv : processVedge g c.1 c.2 out1.2 with
          | none => rw [hv, Option.none_bind] at h; exact absurd h (by simp)
          | some out2 =>
              rw [hv, Option.some_bind] at h
              cases hrest : buildAux g rest out2.2 with
              | none => rw [hrest] at h; exact absurd h (by simp)
              | some bs' =>
                  rw [hrest, Option.map_some'] at h
                  injection h with h'
                  rw [← h']
                  rw [List.countP_append, List.countP_append, List.flatMap_cons,
                    List.countP_append]
                  rw [processHedge_countP ht hh, processVedge_countP ht hv,
                    ih out2.2 bs' hrest]
                  unfold cellEdges
                  rw [List.countP_append]
                  omega

/-- Every assembled branch takes its type, measurement, measurement label
and control label from a present edge of the grid. -/
theorem buildAux_mem_fields {g : Grid} :
    ∀ (cl : List (Nat × Nat)) (ord : Nat) (bs : List Branch),
      buildAux g cl ord = some bs → ∀ br ∈ bs,
      ∃ e : EdgeRef, g.epresent e = true ∧ br.type = g.etype e ∧
        br.measure = g.emeas e ∧ br.measure_label = g.emeasLabel e ∧
        br.control_measure_label = g.ectrl e := by
  intro cl
  induction cl with
  | nil =>
      intro ord bs h br hbr
      injection h with h'
      rw [← h'] at hbr
      exact absurd hbr (List.not_mem_nil br)
  | cons c rest ih =>
      intro ord bs h br hbr
      unfold buildAux at h
      cases hh : processHedge g c.1 c.2 ord with
      | none => rw [hh, Option.none_bind] at h; exact absurd h (by simp)
      | some out1 =>
          rw [hh, Option.some_bind] at h
          cases hv : processVedge g c.1 c.2 out1.2 with
          | none => rw [hv, Option.none_bind] at h; exact absurd h (by simp)
          | some out2 =>
              rw [hv, Option.some_bind] at h
              cases hrest : buildAux g rest out2.2 with
              | none => rw [hrest] at h; exact absurd h (by simp)
              | some bs' =>
                  rw [hrest, Option.map_some'] at h
                  injection h with h'
                  rw [← h'] at hbr
                  rcases List.mem_append.1 hbr with h1 | h1
                  · -- branch from the horizontal edge of this cell
                    unfold processHedge at hh
                    by_cases hc : c.2 < g.n - 1 ∧ g.hasH c.1 c.2
                    · rw [if_pos hc] at hh
                      by_cases hopen : g.htype c.1 c.2 = TYPE_OPEN
                      · rw [if_pos hopen] at hh; exact absurd hh (by simp)
                      · rw [if_neg hopen] at hh
                        by_cases hcol : g.gridNodes (c.1, c.2) = g.gridNodes (c.1, c.2 + 1)
                        · rw [if_pos hcol] at hh
                          by_cases hshort : g.htype c.1 c.2 ≠ TYPE_SHORT
                          · rw [if_pos hshort] at hh; exact absurd hh (by simp)
                          · rw [if_neg hshort] at hh
                            injection hh with hh'
                            rw [← hh'] at h1
                            exact absurd h1 (List.not_mem_nil br)
                        · rw [if_neg hcol] at hh
                          by_cases hconf : check_conflict_component_measure
                              (g.htype c.1 c.2) (g.hmeas c.1 c.2) = true
                          · rw [if_pos hconf] at hh; exact absurd hh (by simp)
                          · rw [if_neg hconf] at hh
                            injection hh with hh'
                            rw [← hh'] at h1
                            rcases List.mem_singleton.1 h1 with rfl
                            exact ⟨(false, c.1, c.2), hc.2, rfl, rfl, rfl, rfl⟩
                    · rw [if_neg hc] at hh
                      injection hh with hh'
                      rw [← hh'] at h1
                      exact absurd h1 (List.not_mem_nil br)
                  · rcases List.mem_append.1 h1 with h2 | h2
                    · -- branch from the vertical edge of this cell
                      unfold processVedge at hv
                      by_cases hc : c.1 < g.m - 1 ∧ g.hasV c.1 c.2
                      · rw [if_pos hc] at hv
                        by_cases hcol : g.gridNodes (c.1, c.2) = g.gridNodes (c.1 + 1, c.2)
                        · rw [if_pos hcol] at hv
                          by_cases hshort : g.vtype c.1 c.2 ≠ TYPE_SHORT
                          · rw [if_pos hshort] at hv; exact absurd hv (by simp)
                          · rw [if_neg hshort] at hv
                            injection hv with hv'
                            rw [← hv'] at h2
                            exact absurd h2 (List.not_mem_nil br)
                        · rw [if_neg hcol] at hv
                          by_cases hconf : check_conflict_component_measure
                              (g.vtype c.1 c.2) (g.vmeas c.1 c.2) = true
                          · rw [if_pos hconf] at hv; exact absurd hv (by simp)
                          · rw [if_neg hconf] at hv
                            injection hv with hv'
                            rw [← hv'] at h2
                            rcases List.mem_singleton.1 h2 with rfl
                            exact ⟨(true, c.1, c.2), hc.2, rfl, rfl, rfl, rfl⟩
                      · rw [if_neg hc] at hv
                        injection hv with hv'
                        rw [← hv'] at h2
                        exact absurd h2 (List.not_mem_nil br)
                    · exact ih out2.2 bs' hrest br h2

/-! ### Voltage-source enforcement (`gen_circuit`, lines 3024-3064; claim C1) -/

/-- `voltage_positions` (lines 3025-3033): the positions whose component
type is `voltage source`, vertical edges first (row-major), then
horizontal edges. -/
def vsPositions (g : Grid) : List EdgeRef :=
  (g.vCells.filter (fun p => g.vtype p.1 p.2 == TYPE_VOLTAGE_SOURCE)).map
    (fun p => ((true, p.1, p.2) : EdgeRef)) ++
  (g.hCells.filter (fun p => g.htype p.1 p.2 == TYPE_VOLTAGE_SOURCE)).map
    (fun p => ((false, p.1, p.2) : EdgeRef))

/-- `candidate_edges` for promotion (lines 3037-3038): present edges of
any non-`open` type. -/
def vsCandidateEdges (g : Grid) : List EdgeRef :=
  (g.vCells.filter (fun p => g.hasV p.1 p.2 && !(g.vtype p.1 p.2 == TYPE_OPEN))).map
    (fun p => ((true, p.1, p.2) : EdgeRef)) ++
  (g.hCells.filter (fun p => g.hasH p.1 p.2 && !(g.htype p.1 p.2 == TYPE_OPEN))).map
    (fun p => ((false, p.1, p.2) : EdgeRef))

/-- Overwrite one edge's component type and value (the promotion writes of
lines 3043-3044 / 3048-3049). -/
def Grid.setEdgeTypeValue (g : Grid) (e : EdgeRef) (t : Nat) (v : Int) : Grid :=
  if e.1 then
    { g with vtype := fun i j => if (i, j) = e.2 then t else g.vtype i j,
             vvalue := fun i j => if (i, j) = e.2 then v else g.vvalue i j }
  else
    { g with htype := fun i j => if (i, j) = e.2 then t else g.htype i j,
             hvalue := fun i j => if (i, j) = e.2 then v else g.hvalue i j }

/-- Demote every voltage-source edge other than `keep` to a resistor with
a fresh value (the loop over `voltage_positions[1:]`, lines 3053-3062;
extensionally the demoted set is exactly the voltage-source positions
other than the kept one). -/
def demoteExtraVoltageSources (g : Grid) (keep : EdgeRef) (valO : EdgeRef → Int) : Grid :=
  { g with
    vtype := fun i j =>
      if g.vtype i j = TYPE_VOLTAGE_SOURCE ∧ ((true, i, j) : EdgeRef) ≠ keep
      then TYPE_RESISTOR else g.vtype i j
    vvalue := fun i j =>
      if g.vtype i j = TYPE_VOLTAGE_SOURCE ∧ ((true, i, j) : EdgeRef) ≠ keep
      then valO (true, i, j) else g.vvalue i j
    htype := fun i j =>
      if g.htype i j = TYPE_VOLTAGE_SOURCE ∧ ((false, i, j) : EdgeRef) ≠ keep
      then TYPE_RESISTOR else g.htype i j
    hvalue := fun i j =>
      if g.htype i j = TYPE_VOLTAGE_SOURCE ∧ ((false, i, j) : EdgeRef) ≠ keep
      then valO (false, i, j) else g.hvalue i j }

/-- The voltage-source enforcement pass of `gen_circuit` (lines
3024-3064): if no voltage source was sampled, promote one eligible
present edge (the random choice is the `pick` oracle); if more than one,
keep the first in scan order and demote the rest to resistors. -/
def enforceSingleVoltageSource (g : Grid) (pick : Nat) (valO : EdgeRef → Int) : Grid :=
  match vsPositions g with
  | [] =>
      let cands := vsCandidateEdges g
      match cands.get? (pick % cands.length) with
      | none => g
      | some e => g.setEdgeTypeValue e TYPE_VOLTAGE_SOURCE (valO e)
  | [_] => g
  | keep :: _ :: _ => demoteExtraVoltageSources g keep valO

theorem mem_vsPositions {g : Grid} {e : EdgeRef} :
    e ∈ vsPositions g ↔ e ∈ g.allEdges ∧ g.etype e = TYPE_VOLTAGE_SOURCE := by
  unfold vsPositions
  rw [List.mem_append, mem_allEdges]
  simp only [List.mem_map, List.mem_filter, beq_iff_eq]
  obtain ⟨b, i, j⟩ := e
  constructor
  · rintro (⟨p, ⟨hp, hty⟩, heq⟩ | ⟨p, ⟨hp, hty⟩, heq⟩)
    · obtain ⟨h1, h2⟩ := mem_idxList.1 hp
      injection heq with hb hp'
      injection hp' with hi hj
      subst hb; subst hi; subst hj
      exact ⟨Or.inl ⟨rfl, h1, h2⟩, by simpa [Grid.etype] using hty⟩
    · obtain ⟨h1, h2⟩ := mem_idxList.1 hp
      injection heq with hb hp'
      injection hp' with hi hj
      subst hb; subst hi; subst hj
      exact ⟨Or.inr ⟨rfl, h1, h2⟩, by simpa [Grid.etype] using hty⟩
  · rintro ⟨(⟨hb, h1, h2⟩ | ⟨hb, h1, h2⟩), hty⟩
    · subst hb
      exact Or.inl ⟨(i, j), ⟨mem_idxList.2 ⟨h1, h2⟩, by simpa [Grid.etype] using hty⟩, rfl⟩
    · subst hb
      exact Or.inr ⟨(i, j), ⟨mem_idxList.2 ⟨h1, h2⟩, by simpa [Grid.etype] using hty⟩, rfl⟩

theorem mem_vsCandidateEdges {g : Grid} {e : EdgeRef} :
    e ∈ vsCandidateEdges g ↔
      e ∈ g.allEdges ∧ g.epresent e = true ∧ g.etype e ≠ TYPE_OPEN := by
  unfold vsCandidateEdges
  rw [List.mem_append, mem_allEdges]
  simp only [List.mem_map, List.mem_filter, Bool.and_eq_true, Bool.not_eq_true',
    beq_eq_false_iff_ne]
  obtain ⟨b, i, j⟩ := e
  constructor
  · rintro (⟨p, ⟨hp, hpr, hty⟩, heq⟩ | ⟨p, ⟨hp, hpr, hty⟩, heq⟩)
    · obtain ⟨h1, h2⟩ := mem_idxList.1 hp
      injection heq with hb hp'
      injection hp' with hi hj
      subst hb; subst hi; subst hj
      exact ⟨Or.inl ⟨rfl, h1, h2⟩, by simpa [Grid.epresent] using hpr,
        by simpa [Grid.etype] using hty⟩
    · obtain ⟨h1, h2⟩ := mem_idxList.1 hp
      injection heq with hb hp'
      injection hp' with hi hj
      subst hb; subst hi; subst hj
      exact ⟨Or.inr ⟨rfl, h1, h2⟩, by simpa [Grid.epresent] using hpr,
        by simpa [Grid.etype] using hty⟩
  · rintro ⟨(⟨hb, h1, h2⟩ | ⟨hb, h1, h2⟩), hpr, hty⟩
    · subst hb
      exact Or.inl ⟨(i, j), ⟨mem_idxList.2 ⟨h1, h2⟩,
        by simpa [Grid.epresent] using hpr, by simpa [Grid.etype] using hty⟩, rfl⟩
    · subst hb
      exact Or.inr ⟨(i, j), ⟨mem_idxList.2 ⟨h1, h2⟩,
        by simpa [Grid.epresent] using hpr, by simpa [Grid.etype] using hty⟩, rfl⟩

theorem setEdgeTypeValue_mn (g : Grid) (e : EdgeRef) (t : Nat) (v : Int) :
    (g.setEdgeTypeValue e t v).m = g.m ∧ (g.setEdgeTypeValue e t v).n = g.n := by
  unfold Grid.setEdgeTypeValue
  by_cases h : e.1 = true <;> simp [h]

theorem etype_setEdgeTypeValue (g : Grid) (e : EdgeRef) (t : Nat) (v : Int)
    (x : EdgeRef) :
    (g.setEdgeTypeValue e t v).etype x = if x = e then t else g.etype x := by
  obtain ⟨b, i, j⟩ := e
  obtain ⟨c, k, l⟩ := x
  unfold Grid.setEdgeTypeValue Grid.etype
  cases b <;> cases c <;>
    simp only [if_true, if_false, Bool.false_eq_true, Bool.true_eq_false, Prod.ext_iff] <;>
    by_cases hkl : (k, l) = ((i, j) : Nat × Nat) <;>
    simp_all [Prod.ext_iff]

theorem epresent_setEdgeTypeValue (g : Grid) (e : EdgeRef) (t : Nat) (v : Int)
    (x : EdgeRef) : (g.setEdgeTypeValue e t v).epresent x = g.epresent x := by
  unfold Grid.setEdgeTypeValue Grid.epresent
  by_cases h : e.1 = true <;> simp [h]

theorem emeas_setEdgeTypeValue (g : Grid) (e : EdgeRef) (t : Nat) (v : Int)
    (x : EdgeRef) : (g.setEdgeTypeValue e t v).emeas x = g.emeas x := by
  unfold Grid.setEdgeTypeValue Grid.emeas
  by_cases h : e.1 = true <;> simp [h]

theorem emeasLabel_setEdgeTypeValue (g : Grid) (e : EdgeRef) (t : Nat) (v : Int)
    (x : EdgeRef) : (g.setEdgeTypeValue e t v).emeasLabel x = g.emeasLabel x := by
  unfold Grid.setEdgeTypeValue Grid.emeasLabel
  by_cases h : e.1 = true <;> simp [h]

theorem ectrl_setEdgeTypeValue (g : Grid) (e : EdgeRef) (t : Nat) (v : Int)
    (x : EdgeRef) : (g.setEdgeTypeValue e t v).ectrl x = g.ectrl x := by
  unfold Grid.setEdgeTypeValue Grid.ectrl
  by_cases h : e.1 = true <;> simp [h]

theorem etype_demoteExtra (g : Grid) (keep : EdgeRef) (valO : EdgeRef → Int)
    (x : EdgeRef) :
    (demoteExtraVoltageSources g keep valO).etype x =
      if g.etype x = TYPE_VOLTAGE_SOURCE ∧ x ≠ keep then TYPE_RESISTOR
      else g.etype x := by
  obtain ⟨c, k, l⟩ := x
  unfold demoteExtraVoltageSources Grid.etype
  cases c <;> simp

theorem allEdges_eq_of_mn {g1 g2 : Grid} (hm : g1.m = g2.m) (hn : g1.n = g2.n) :
    g1.allEdges = g2.allEdges := by
  unfold Grid.allEdges Grid.cells cellEdges
  rw [hm, hn]

theorem countP_eq_one_unique {l : List EdgeRef} (hnd : l.Nodup) {e0 : EdgeRef}
    (he : e0 ∈ l) {p : EdgeRef → Bool} (hp : ∀ e ∈ l, p e = true ↔ e = e0) :
    l.countP p = 1 := by
  have h1 : l.countP p = l.countP (fun e => e == e0) := by
    refine List.countP_congr (fun e he' => ?_)
    simp only [beq_iff_eq]
    exact hp e he'
  rw [h1]
  clear h1 hp p
  induction l with
  | nil => cases he
  | cons a l ih =>
      rw [List.countP_cons]
      rcases List.mem_cons.1 he with rfl | he'
      · have hz : l.countP (fun e => e == e0) = 0 := by
          rw [List.countP_eq_zero]
          intro x hx
          simp only [beq_iff_eq]
          intro hcon
          subst hcon
          exact (List.nodup_cons.1 hnd).1 hx
        simp [hz]
      · have ha : ((a == e0) = true) = False := by
          simp only [beq_iff_eq, eq_iff_iff, iff_false]
          intro hcon
          subst hcon
          exact (List.nodup_cons.1 hnd).1 he'
        rw [ih (List.nodup_cons.1 hnd).2 he']
        simp [ha]

/-- After the voltage-source enforcement pass, exactly one present edge
has type `voltage source` — provided every sampled voltage-source edge
was present and at least one present non-`open` edge exists (both hold
for every v11 sample that reaches this pass). -/
theorem enforce_single_vs_count (g : Grid) (pick : Nat) (valO : EdgeRef → Int)
    (hpv : ∀ e ∈ g.allEdges, g.etype e = TYPE_VOLTAGE_SOURCE → g.epresent e = true)
    (hcand : ∃ e, e ∈ g.allEdges ∧ g.epresent e = true ∧ g.etype e ≠ TYPE_OPEN) :
    ((enforceSingleVoltageSource g pick valO).allEdges).countP
      (fun e => (enforceSingleVoltageSource g pick valO).epresent e &&
        (enforceSingleVoltageSource g pick valO).etype e == TYPE_VOLTAGE_SOURCE) = 1 := by
  cases hvp : vsPositions g with
  | nil =>
      -- promotion: no voltage source was sampled
      have hnovs : ∀ e ∈ g.allEdges, g.etype e ≠ TYPE_VOLTAGE_SOURCE := by
        intro e hae hty
        have hmem : e ∈ vsPositions g := mem_vsPositions.2 ⟨hae, hty⟩
        rw [hvp] at hmem
        exact absurd hmem (List.not_mem_nil e)
      obtain ⟨ec, hec, hecp, heco⟩ := hcand
      have hcne : vsCandidateEdges g ≠ [] := by
        intro hnil
        have hmem : ec ∈ vsCandidateEdges g := mem_vsCandidateEdges.2 ⟨hec, hecp, heco⟩
        rw [hnil] at hmem
        exact absurd hmem (List.not_mem_nil ec)
      have hlen : 0 < (vsCandidateEdges g).length := List.length_pos.2 hcne
      have hlt : pick % (vsCandidateEdges g).length < (vsCandidateEdges g).length :=
        Nat.mod_lt _ hlen
      have hsome : (vsCandidateEdges g).get? (pick % (vsCandidateEdges g).length) =
          some ((vsCandidateEdges g).get ⟨pick % (vsCandidateEdges g).length, hlt⟩) :=
        List.get?_eq_get hlt
      set e0 : EdgeRef :=
        (vsCandidateEdges g).get ⟨pick % (vsCandidateEdges g).length, hlt⟩ with he0
      have hg' : enforceSingleVoltageSource g pick valO =
          g.setEdgeTypeValue e0 TYPE_VOLTAGE_SOURCE (valO e0) := by
        simp only [enforceSingleVoltageSource, hvp, hsome]
      rw [hg']
      have he0mem : e0 ∈ vsCandidateEdges g := List.get_mem _ _ _
      obtain ⟨he0a, he0p, _⟩ := mem_vsCandidateEdges.1 he0mem
      have hmn := setEdgeTypeValue_mn g e0 TYPE_VOLTAGE_SOURCE (valO e0)
      rw [allEdges_eq_of_mn hmn.1 hmn.2]
      refine countP_eq_one_unique (nodup_allEdges g) he0a (fun e hae => ?_)
      rw [Bool.and_eq_true, epresent_setEdgeTypeValue, etype_setEdgeTypeValue,
        beq_iff_eq]
      constructor
      · rintro ⟨hpr, hty⟩
        by_cases hee : e = e0
        · exact hee
        · rw [if_neg hee] at hty
          exact absurd hty (hnovs e hae)
      · rintro rfl
        exact ⟨he0p, by rw [if_pos rfl]⟩
  | cons keep rest =>
      cases rest with
      | nil =>
          -- exactly one voltage source sampled: nothing changes
          have hg' : enforceSingleVoltageSource g pick valO = g := by
            simp only [enforceSingleVoltageSource, hvp]
          rw [hg']
          have hkeep : keep ∈ vsPositions g := by
            rw [hvp]; exact List.mem_singleton_self keep
          obtain ⟨hka, hkt⟩ := mem_vsPositions.1 hkeep
          refine countP_eq_one_unique (nodup_allEdges g) hka (fun e hae => ?_)
          rw [Bool.and_eq_true, beq_iff_eq]
          constructor
          · rintro ⟨hpr, hty⟩
            have hmem : e ∈ vsPositions g := mem_vsPositions.2 ⟨hae, hty⟩
            rw [hvp] at hmem
            exact List.mem_singleton.1 hmem
          · rintro rfl
            exact ⟨hpv _ hka hkt, hkt⟩
      | cons b rest' =>
          -- more than one: all but the first are demoted
          have hg' : enforceSingleVoltageSource g pick valO =
              demoteExtraVoltageSources g keep valO := by
            simp only [enforceSingleVoltageSource, hvp]
          rw [hg']
          have hkeep : keep ∈ vsPositions g := by
            rw [hvp]; exact List.mem_cons_self keep _
          obtain ⟨hka, hkt⟩ := mem_vsPositions.1 hkeep
          rw [@allEdges_eq_of_mn (demoteExtraVoltageSources g keep valO) g rfl rfl]
          refine countP_eq_one_unique (nodup_allEdges g) hka (fun e hae => ?_)
          rw [Bool.and_eq_true, etype_demoteExtra, beq_iff_eq]
          have hpres : (demoteExtraVoltageSources g keep valO).epresent e =
              g.epresent e := rfl
          rw [hpres]
          constructor
          · rintro ⟨hpr, hty⟩
            by_cases hcond : g.etype e = TYPE_VOLTAGE_SOURCE ∧ e ≠ keep
            · rw [if_pos hcond] at hty
              exact absurd hty (by decide)
            · rw [if_neg hcond] at hty
              rcases Decidable.not_and_iff_or_not.1 hcond with h | h
              · exact absurd hty h
              · exact Decidable.not_not.1 h
          · rintro rfl
            refine ⟨hpv _ hka hkt, ?_⟩
            rw [if_neg (by simp), hkt]

/-! ### The v11 sampler and the remaining `gen_circuit` passes
(`gen_circuit`, lines 2718-3145; claims C1 and C10)

Random draws are abstracted as oracles: `tV/tH` are the weighted
component-type choices, `mV/mH` the proposed measurement kinds, `lV/lH`
the proposed measurement labels, `valV/valH` the component values and
`dV/dH` the direction coin flips.  The value-unit draw is from the
singleton table `[UNIT_MODE_1]` and is therefore the constant 0, and the
`.astype(int)` casts are identities in this integer embedding. -/

structure SampleOracle where
  tV : Nat → Nat → Nat
  tH : Nat → Nat → Nat
  mV : Nat → Nat → Nat
  mH : Nat → Nat → Nat
  lV : Nat → Nat → Int
  lH : Nat → Nat → Int
  valV : Nat → Nat → Int
  valH : Nat → Nat → Int
  dV : Nat → Nat → Bool
  dH : Nat → Nat → Bool

/-- The sampling scan order: all vertical edges (row-major), then all
horizontal edges — the order in which `comp_cnt` labels and
`meas_label_stat` entries are accumulated. -/
def sampleScan (m n : Nat) : List EdgeRef :=
  (idxList (m - 1) n).map (fun p => ((true, p.1, p.2) : EdgeRef)) ++
  (idxList m (n - 1)).map (fun p => ((false, p.1, p.2) : EdgeRef))

def oracleTypeAt (o : SampleOracle) (e : EdgeRef) : Nat :=
  if e.1 then o.tV e.2.1 e.2.2 else o.tH e.2.1 e.2.2

/-- The per-type running label counter `comp_cnt` of the sampling loop:
the label of a non-`open` edge is one more than the number of earlier
scanned edges of the same sampled type (`open` edges are skipped by the
`continue` and keep label 0). -/
def sampledLabel (m n : Nat) (o : SampleOracle) (e : EdgeRef) : Int :=
  if oracleTypeAt o e = TYPE_OPEN then 0
  else (((sampleScan m n).take ((sampleScan m n).indexOf e)).countP
      (fun x => oracleTypeAt o x == oracleTypeAt o e) : Int) + 1

/-- One iteration body of the v11 sampling `while` loop (lines 2781-2894):
presence is cleared exactly for `open` draws; dependent-source edges are
forced to measurement `none` with measurement label `-1` (lines
2849-2854 and 2884-2889); `open` edges keep the zero-initialised fields. -/
def sampleGridV11 (m n : Nat) (o : SampleOracle) : Grid :=
  { m := m, n := n
    hasV := fun i j => !(o.tV i j == TYPE_OPEN)
    hasH := fun i j => !(o.tH i j == TYPE_OPEN)
    vtype := o.tV
    htype := o.tH
    vlabel := fun i j => sampledLabel m n o (true, i, j)
    hlabel := fun i j => sampledLabel m n o (false, i, j)
    vvalue := fun i j => if o.tV i j = TYPE_OPEN then 0 else o.valV i j
    hvalue := fun i j => if o.tH i j = TYPE_OPEN then 0 else o.valH i j
    vunit := fun _ _ => 0
    hunit := fun _ _ => 0
    vdir := fun i j => if o.tV i j = TYPE_OPEN then false else o.dV i j
    hdir := fun i j => if o.tH i j = TYPE_OPEN then false else o.dH i j
    vmeas := fun i j =>
      if o.tV i j = TYPE_OPEN then MEAS_TYPE_NONE
      else if o.tV i j ∈ depSourceTypes then MEAS_TYPE_NONE else o.mV i j
    hmeas := fun i j =>
      if o.tH i j = TYPE_OPEN then MEAS_TYPE_NONE
      else if o.tH i j ∈ depSourceTypes then MEAS_TYPE_NONE else o.mH i j
    vmeasLabel := fun i j =>
      if o.tV i j = TYPE_OPEN then 0
      else if o.tV i j ∈ depSourceTypes then -1 else o.lV i j
    hmeasLabel := fun i j =>
      if o.tH i j = TYPE_OPEN then 0
      else if o.tH i j ∈ depSourceTypes then -1 else o.lH i j
    vmeasDir := fun _ _ => false
    hmeasDir := fun _ _ => false
    vctrl := fun _ _ => 0
    hctrl := fun _ _ => 0 }

/-- The `meas_label_stat` list for one measurement kind, reconstructed
from the sampled arrays (labels of present edges carrying that
measurement kind, vertical scan first). -/
def measLabelList (g : Grid) (mt : Nat) : List Int :=
  (g.vCells.filterMap (fun p =>
    if g.hasV p.1 p.2 && g.vmeas p.1 p.2 == mt then some (g.vmeasLabel p.1 p.2) else none)) ++
  (g.hCells.filterMap (fun p =>
    if g.hasH p.1 p.2 && g.hmeas p.1 p.2 == mt then some (g.hmeasLabel p.1 p.2) else none))

/-- `random.choice` over a measurement-label list (guarded by the
acceptance test, the list is never empty when consulted). -/
def chooseFrom (l : List Int) (k : Nat) : Int := (l.get? (k % l.length)).getD 0

/-- The acceptance test at the end of the sampling loop (lines
2896-2908): one or two dependent sources, and a measurement of the
matching kind available for each dependent-source kind in use. -/
def sampleAcceptedV11 (g : Grid) : Bool :=
  let nvc := g.allEdges.countP (fun e =>
    g.etype e == TYPE_VCCS || g.etype e == TYPE_VCVS)
  let nic := g.allEdges.countP (fun e =>
    g.etype e == TYPE_CCCS || g.etype e == TYPE_CCVS)
  decide (1 ≤ nvc + nic) && decide (nvc + nic ≤ 2) &&
  (!(decide (0 < nvc)) || decide (0 < (measLabelList g MEAS_TYPE_VOLTAGE).length)) &&
  (!(decide (0 < nic)) || decide (0 < (measLabelList g MEAS_TYPE_CURRENT).length))

/-- The control-binding pass (lines 2914-2925): every VCCS/VCVS edge gets
a voltage-measurement label, every CCCS/CCVS edge a current-measurement
label, chosen by the `pickC` oracle. -/
def bindControls (g : Grid) (pickC : EdgeRef → Nat) : Grid :=
  { g with
    vctrl := fun i j =>
      if g.vtype i j = TYPE_VCCS ∨ g.vtype i j = TYPE_VCVS then
        chooseFrom (measLabelList g MEAS_TYPE_VOLTAGE) (pickC (true, i, j))
      else if g.vtype i j = TYPE_CCCS ∨ g.vtype i j = TYPE_CCVS then
        chooseFrom (measLabelList g MEAS_TYPE_CURRENT) (pickC (true, i, j))
      else g.vctrl i j
    hctrl := fun i j =>
      if g.htype i j = TYPE_VCCS ∨ g.htype i j = TYPE_VCVS then
        chooseFrom (measLabelList g MEAS_TYPE_VOLTAGE) (pickC (false, i, j))
      else if g.htype i j = TYPE_CCCS ∨ g.htype i j = TYPE_CCVS then
        chooseFrom (measLabelList g MEAS_TYPE_CURRENT) (pickC (false, i, j))
      else g.hctrl i j }

/-- The current-source conversion pass (lines 3011-3022): every sampled
current source becomes a resistor with a fresh value. -/
def convertCurrentSources (g : Grid) (valO : EdgeRef → Int) : Grid :=
  { g with
    vtype := fun i j =>
      if g.vtype i j = TYPE_CURRENT_SOURCE then TYPE_RESISTOR else g.vtype i j
    vvalue := fun i j =>
      if g.vtype i j = TYPE_CURRENT_SOURCE then valO (true, i, j) else g.vvalue i j
    htype := fun i j =>
      if g.htype i j = TYPE_CURRENT_SOURCE then TYPE_RESISTOR else g.htype i j
    hvalue := fun i j =>
      if g.htype i j = TYPE_CURRENT_SOURCE then valO (false, i, j) else g.hvalue i j }

/-- The component types tracked by `reassign_unique_labels`'s
`component_counters` dict (every type except `short` and `open`). -/
def counterTypes : List Nat :=
  [TYPE_RESISTOR, TYPE_CAPACITOR, TYPE_INDUCTOR, TYPE_VOLTAGE_SOURCE,
   TYPE_CURRENT_SOURCE, TYPE_VCCS, TYPE_VCVS, TYPE_CCCS, TYPE_CCVS,
   TYPE_OPAMP_INVERTING, TYPE_OPAMP_NONINVERTING, TYPE_OPAMP_BUFFER,
   TYPE_OPAMP_INTEGRATOR, TYPE_OPAMP_DIFFERENTIATOR, TYPE_OPAMP_SUMMING,
   TYPE_BJT_SMALL_SIGNAL, TYPE_MOSFET_SMALL_SIGNAL]

/-- The scan order of `reassign_unique_labels` (lines 1143-1183):
vertical edges first (row-major), then horizontal edges. -/
def relabelScan (g : Grid) : List EdgeRef :=
  (g.vCells.map (fun p => ((true, p.1, p.2) : EdgeRef))) ++
  (g.hCells.map (fun p => ((false, p.1, p.2) : EdgeRef)))

/-- `reassign_unique_labels`: per-type labels are renumbered densely from
1 along the scan; an edge of a counted type gets one more than the number
of earlier same-type edges, other edges keep their label. -/
def reassign_unique_labels (g : Grid) : Grid :=
  { g with
    vlabel := fun i j =>
      if g.vtype i j ∈ counterTypes then
        (((relabelScan g).take ((relabelScan g).indexOf ((true, i, j) : EdgeRef))).countP
          (fun x => g.etype x == g.vtype i j) : Int) + 1
      else g.vlabel i j
    hlabel := fun i j =>
      if g.htype i j ∈ counterTypes then
        (((relabelScan g).take ((relabelScan g).indexOf ((false, i, j) : EdgeRef))).countP
          (fun x => g.etype x == g.htype i j) : Int) + 1
      else g.hlabel i j }

/-- `integrator_positions` (lines 3075-3083). -/
def integratorPositions (g : Grid) : List EdgeRef :=
  (g.vCells.filter (fun p => g.vtype p.1 p.2 == TYPE_OPAMP_INTEGRATOR)).map
    (fun p => ((true, p.1, p.2) : EdgeRef)) ++
  (g.hCells.filter (fun p => g.htype p.1 p.2 == TYPE_OPAMP_INTEGRATOR)).map
    (fun p => ((false, p.1, p.2) : EdgeRef))

/-- Promotion candidates for the integrator pass (lines 3087-3088):
present resistor edges. -/
def integratorCandidateEdges (g : Grid) : List EdgeRef :=
  (g.vCells.filter (fun p => g.hasV p.1 p.2 && g.vtype p.1 p.2 == TYPE_RESISTOR)).map
    (fun p => ((true, p.1, p.2) : EdgeRef)) ++
  (g.hCells.filter (fun p => g.hasH p.1 p.2 && g.htype p.1 p.2 == TYPE_RESISTOR)).map
    (fun p => ((false, p.1, p.2) : EdgeRef))

def demoteExtraIntegrators (g : Grid) (keep : EdgeRef) (valO : EdgeRef → Int) : Grid :=
  { g with
    vtype := fun i j =>
      if g.vtype i j = TYPE_OPAMP_INTEGRATOR ∧ ((true, i, j) : EdgeRef) ≠ keep
      then TYPE_RESISTOR else g.vtype i j
    vvalue := fun i j =>
      if g.vtype i j = TYPE_OPAMP_INTEGRATOR ∧ ((true, i, j) : EdgeRef) ≠ keep
      then valO (true, i, j) else g.vvalue i j
    htype := fun i j =>
      if g.htype i j = TYPE_OPAMP_INTEGRATOR ∧ ((false, i, j) : EdgeRef) ≠ keep
      then TYPE_RESISTOR else g.htype i j
    hvalue := fun i j =>
      if g.htype i j = TYPE_OPAMP_INTEGRATOR ∧ ((false, i, j) : EdgeRef) ≠ keep
      then valO (false, i, j) else g.hvalue i j }

/-- The single-integrator enforcement pass (lines 3073-3114). -/
def enforceSingleIntegrator (g : Grid) (pick : Nat) (valO : EdgeRef → Int) : Grid :=
  match integratorPositions g with
  | [] =>
      let cands := integratorCandidateEdges g
      match cands.get? (pick % cands.length) with
      | none => g
      | some e => g.setEdgeTypeValue e TYPE_OPAMP_INTEGRATOR (valO e)
  | [_] => g
  | keep :: _ :: _ => demoteExtraIntegrators g keep valO

/-- The full grid pipeline of `gen_circuit` for `note = "v11"` with
`rlc = False` (the default of the generation driver): sample, bind
dependent-source controls, convert current sources, enforce a single
voltage source, relabel, and optionally enforce a single integrator
followed by a second relabeling (lines 2718-3145). -/
def genGridV11 (m n : Nat) (o : SampleOracle) (pickC : EdgeRef → Nat)
    (vsPick intPick : Nat) (valCS valVS valInt : EdgeRef → Int)
    (integrator : Bool) : Grid :=
  let g0 := sampleGridV11 m n o
  let g1 := bindControls g0 pickC
  let g2 := convertCurrentSources g1 valCS
  let g3 := enforceSingleVoltageSource g2 vsPick valVS
  let g4 := reassign_unique_labels g3
  if integrator then reassign_unique_labels (enforceSingleIntegrator g4 intPick valInt)
  else g4

/-! ### Field-preservation facts for the pipeline passes -/

theorem sample_etype (m n : Nat) (o : SampleOracle) (e : EdgeRef) :
    (sampleGridV11 m n o).etype e = oracleTypeAt o e := by
  obtain ⟨b, i, j⟩ := e
  cases b <;> rfl

theorem sample_present (m n : Nat) (o : SampleOracle) (e : EdgeRef) :
    (sampleGridV11 m n o).epresent e = !(oracleTypeAt o e == TYPE_OPEN) := by
  obtain ⟨b, i, j⟩ := e
  cases b <;> rfl

theorem etype_convertCS (g : Grid) (valO : EdgeRef → Int) (e : EdgeRef) :
    (convertCurrentSources g valO).etype e =
      if g.etype e = TYPE_CURRENT_SOURCE then TYPE_RESISTOR else g.etype e := by
  obtain ⟨b, i, j⟩ := e
  unfold convertCurrentSources Grid.etype
  cases b <;> simp

theorem dep_ne_open {t : Nat} (h : t ∈ depSourceTypes) : t ≠ TYPE_OPEN := by
  simp only [depSourceTypes, List.mem_cons, List.not_mem_nil, or_false] at h
  rcases h with rfl | rfl | rfl | rfl <;> decide

theorem mn_enforceVS (g : Grid) (pick : Nat) (valO : EdgeRef → Int) :
    (enforceSingleVoltageSource g pick valO).m = g.m ∧
    (enforceSingleVoltageSource g pick valO).n = g.n := by
  cases hvp : vsPositions g with
  | nil =>
      cases hget : (vsCandidateEdges g).get?
          (pick % (vsCandidateEdges g).length) with
      | none =>
          have hg' : enforceSingleVoltageSource g pick valO = g := by
            simp only [enforceSingleVoltageSource, hvp, hget]
          rw [hg']; exact ⟨rfl, rfl⟩
      | some e0 =>
          have hg' : enforceSingleVoltageSource g pick valO =
              g.setEdgeTypeValue e0 TYPE_VOLTAGE_SOURCE (valO e0) := by
            simp only [enforceSingleVoltageSource, hvp, hget]
          rw [hg']
          exact setEdgeTypeValue_mn g e0 _ _
  | cons keep rest =>
      cases rest with
      | nil =>
          have hg' : enforceSingleVoltageSource g pick valO = g := by
            simp only [enforceSingleVoltageSource, hvp]
          rw [hg']; exact ⟨rfl, rfl⟩
      | cons b rest' =>
          have hg' : enforceSingleVoltageSource g pick valO =
              demoteExtraVoltageSources g keep valO := by
            simp only [enforceSingleVoltageSource, hvp]
          rw [hg']; exact ⟨rfl, rfl⟩

theorem mn_enforceInt (g : Grid) (pick : Nat) (valO : EdgeRef → Int) :
    (enforceSingleIntegrator g pick valO).m = g.m ∧
    (enforceSingleIntegrator g pick valO).n = g.n := by
  cases hvp : integratorPositions g with
  | nil =>
      cases hget : (integratorCandidateEdges g).get?
          (pick % (integratorCandidateEdges g).length) with
      | none =>
          have hg' : enforceSingleIntegrator g pick valO = g := by
            simp only [enforceSingleIntegrator, hvp, hget]
          rw [hg']; exact ⟨rfl, rfl⟩
      | some e0 =>
          have hg' : enforceSingleIntegrator g pick valO =
              g.setEdgeTypeValue e0 TYPE_OPAMP_INTEGRATOR (valO e0) := by
            simp only [enforceSingleIntegrator, hvp, hget]
          rw [hg']
          exact setEdgeTypeValue_mn g e0 _ _
  | cons keep rest =>
      cases rest with
      | nil =>
          have hg' : enforceSingleIntegrator g pick valO = g := by
            simp only [enforceSingleIntegrator, hvp]
          rw [hg']; exact ⟨rfl, rfl⟩
      | cons b rest' =>
          have hg' : enforceSingleIntegrator g pick valO =
              demoteExtraIntegrators g keep valO := by
            simp only [enforceSingleIntegrator, hvp]
          rw [hg']; exact ⟨rfl, rfl⟩

theorem mem_integratorCandidateEdges {g : Grid} {e : EdgeRef} :
    e ∈ integratorCandidateEdges g ↔
      e ∈ g.allEdges ∧ g.epresent e = true ∧ g.etype e = TYPE_RESISTOR := by
  unfold integratorCandidateEdges
  rw [List.mem_append, mem_allEdges]
  simp only [List.mem_map, List.mem_filter, Bool.and_eq_true, beq_iff_eq]
  obtain ⟨b, i, j⟩ := e
  constructor
  · rintro (⟨p, ⟨hp, hpr, hty⟩, heq⟩ | ⟨p, ⟨hp, hpr, hty⟩, heq⟩)
    · obtain ⟨h1, h2⟩ := mem_idxList.1 hp
      injection heq with hb hp'
      injection hp' with hi hj
      subst hb; subst hi; subst hj
      exact ⟨Or.inl ⟨rfl, h1, h2⟩, by simpa [Grid.epresent] using hpr,
        by simpa [Grid.etype] using hty⟩
    · obtain ⟨h1, h2⟩ := mem_idxList.1 hp
      injection heq with hb hp'
      injection hp' with hi hj
      subst hb; subst hi; subst hj
      exact ⟨Or.inr ⟨rfl, h1, h2⟩, by simpa [Grid.epresent] using hpr,
        by simpa [Grid.etype] using hty⟩
  · rintro ⟨(⟨hb, h1, h2⟩ | ⟨hb, h1, h2⟩), hpr, hty⟩
    · subst hb
      exact Or.inl ⟨(i, j), ⟨mem_idxList.2 ⟨h1, h2⟩,
        by simpa [Grid.epresent] using hpr, by simpa [Grid.etype] using hty⟩, rfl⟩
    · subst hb
      exact Or.inr ⟨(i, j), ⟨mem_idxList.2 ⟨h1, h2⟩,
        by simpa [Grid.epresent] using hpr, by simpa [Grid.etype] using hty⟩, rfl⟩

theorem etype_demoteExtraInt (g : Grid) (keep : EdgeRef) (valO : EdgeRef → Int)
    (x : EdgeRef) :
    (demoteExtraIntegrators g keep valO).etype x =
      if g.etype x = TYPE_OPAMP_INTEGRATOR ∧ x ≠ keep then TYPE_RESISTOR
      else g.etype x := by
  obtain ⟨c, k, l⟩ := x
  unfold demoteExtraIntegrators Grid.etype
  cases c <;> simp

theorem epresent_enforceInt (g : Grid) (pick : Nat) (valO : EdgeRef → Int)
    (e : EdgeRef) :
    (enforceSingleIntegrator g pick valO).epresent e = g.epresent e := by
  cases hvp : integratorPositions g with
  | nil =>
      cases hget : (integratorCandidateEdges g).get?
          (pick % (integratorCandidateEdges g).length) with
      | none =>
          have hg' : enforceSingleIntegrator g pick valO = g := by
            simp only [enforceSingleIntegrator, hvp, hget]
          rw [hg']
      | some e0 =>
          have hg' : enforceSingleIntegrator g pick valO =
              g.setEdgeTypeValue e0 TYPE_OPAMP_INTEGRATOR (valO e0) := by
            simp only [enforceSingleIntegrator, hvp, hget]
          rw [hg', epresent_setEdgeTypeValue]
  | cons keep rest =>
      cases rest with
      | nil =>
          have hg' : enforceSingleIntegrator g pick valO = g := by
            simp only [enforceSingleIntegrator, hvp]
          rw [hg']
      | cons b rest' =>
          have hg' : enforceSingleIntegrator g pick valO =
              demoteExtraIntegrators g keep valO := by
            simp only [enforceSingleIntegrator, hvp]
          rw [hg']
          rfl

/-- The integrator pass never creates or destroys a voltage source. -/
theorem etype_enforceInt_vs_iff (g : Grid) (pick : Nat) (valO : EdgeRef → Int)
    (e : EdgeRef) :
    ((enforceSingleIntegrator g pick valO).etype e = TYPE_VOLTAGE_SOURCE) ↔
      (g.etype e = TYPE_VOLTAGE_SOURCE) := by
  cases hvp : integratorPositions g with
  | nil =>
      cases hget : (integratorCandidateEdges g).get?
          (pick % (integratorCandidateEdges g).length) with
      | none =>
          have hg' : enforceSingleIntegrator g pick valO = g := by
            simp only [enforceSingleIntegrator, hvp, hget]
          rw [hg']
      | some e0 =>
          have hg' : enforceSingleIntegrator g pick valO =
              g.setEdgeTypeValue e0 TYPE_OPAMP_INTEGRATOR (valO e0) := by
            simp only [enforceSingleIntegrator, hvp, hget]
          rw [hg', etype_setEdgeTypeValue]
          have he0 : e0 ∈ integratorCandidateEdges g := List.get?_mem hget
          obtain ⟨_, _, he0t⟩ := mem_integratorCandidateEdges.1 he0
          constructor
          · intro hty
            by_cases hee : e = e0
            · rw [if_pos hee] at hty; exact absurd hty (by decide)
            · rw [if_neg hee] at hty; exact hty
          · intro hty
            have hee : e ≠ e0 := by
              intro hcon
              rw [hcon, he0t] at hty
              exact absurd hty (by decide)
            rw [if_neg hee]; exact hty
  | cons keep rest =>
      cases rest with
      | nil =>
          have hg' : enforceSingleIntegrator g pick valO = g := by
            simp only [enforceSingleIntegrator, hvp]
          rw [hg']
      | cons b rest' =>
          have hg' : enforceSingleIntegrator g pick valO =
              demoteExtraIntegrators g keep valO := by
            simp only [enforceSingleIntegrator, hvp]
          rw [hg', etype_demoteExtraInt]
          constructor
          · intro hty
            by_cases hcond : g.etype e = TYPE_OPAMP_INTEGRATOR ∧ e ≠ keep
            · rw [if_pos hcond] at hty; exact absurd hty (by decide)
            · rw [if_neg hcond] at hty; exact hty
          · intro hty
            have hcond : ¬(g.etype e = TYPE_OPAMP_INTEGRATOR ∧ e ≠ keep) := by
              rintro ⟨hint, _⟩
              rw [hty] at hint
              exact absurd hint (by decide)
            rw [if_neg hcond]; exact hty

/-! ### Dependent sources never carry measurements (claim C10) -/

/-- No dependent-source edge carries a measurement request. -/
def depMeasOk (g : Grid) : Prop :=
  ∀ e : EdgeRef, g.etype e ∈ depSourceTypes →
    g.emeas e = MEAS_TYPE_NONE ∧ g.emeasLabel e = -1

theorem depMeasOk_sample (m n : Nat) (o : SampleOracle) :
    depMeasOk (sampleGridV11 m n o) := by
  intro e hdep
  rw [sample_etype] at hdep
  have hno : oracleTypeAt o e ≠ TYPE_OPEN := dep_ne_open hdep
  obtain ⟨b, i, j⟩ := e
  cases b
  · have hdep' : o.tH i j ∈ depSourceTypes := hdep
    have hno' : ¬ o.tH i j = TYPE_OPEN := hno
    constructor
    · show (if o.tH i j = TYPE_OPEN then MEAS_TYPE_NONE
        else if o.tH i j ∈ depSourceTypes then MEAS_TYPE_NONE else o.mH i j) =
          MEAS_TYPE_NONE
      rw [if_neg hno', if_pos hdep']
    · show (if o.tH i j = TYPE_OPEN then 0
        else if o.tH i j ∈ depSourceTypes then -1 else o.lH i j) = -1
      rw [if_neg hno', if_pos hdep']
  · have hdep' : o.tV i j ∈ depSourceTypes := hdep
    have hno' : ¬ o.tV i j = TYPE_OPEN := hno
    constructor
    · show (if o.tV i j = TYPE_OPEN then MEAS_TYPE_NONE
        else if o.tV i j ∈ depSourceTypes then MEAS_TYPE_NONE else o.mV i j) =
          MEAS_TYPE_NONE
      rw [if_neg hno', if_pos hdep']
    · show (if o.tV i j = TYPE_OPEN then 0
        else if o.tV i j ∈ depSourceTypes then -1 else o.lV i j) = -1
      rw [if_neg hno', if_pos hdep']

theorem depMeasOk_bind (g : Grid) (pickC : EdgeRef → Nat) (h : depMeasOk g) :
    depMeasOk (bindControls g pickC) :=
  fun e hdep => h e hdep

theorem depMeasOk_relabel (g : Grid) (h : depMeasOk g) :
    depMeasOk (reassign_unique_labels g) :=
  fun e hdep => h e hdep

theorem depMeasOk_convert (g : Grid) (valO : EdgeRef → Int) (h : depMeasOk g) :
    depMeasOk (convertCurrentSources g valO) := by
  intro e hdep
  rw [etype_convertCS] at hdep
  by_cases hcs : g.etype e = TYPE_CURRENT_SOURCE
  · rw [if_pos hcs] at hdep; exact absurd hdep (by decide)
  · rw [if_neg hcs] at hdep
    exact h e hdep

theorem depMeasOk_enforceVS (g : Grid) (pick : Nat) (valO : EdgeRef → Int)
    (h : depMeasOk g) : depMeasOk (enforceSingleVoltageSource g pick valO) := by
  cases hvp : vsPositions g with
  | nil =>
      cases hget : (vsCandidateEdges g).get?
          (pick % (vsCandidateEdges g).length) with
      | none =>
          have hg' : enforceSingleVoltageSource g pick valO = g := by
            simp only [enforceSingleVoltageSource, hvp, hget]
          rw [hg']; exact h
      | some e0 =>
          have hg' : enforceSingleVoltageSource g pick valO =
              g.setEdgeTypeValue e0 TYPE_VOLTAGE_SOURCE (valO e0) := by
            simp only [enforceSingleVoltageSource, hvp, hget]
          rw [hg']
          intro e hdep
          rw [etype_setEdgeTypeValue] at hdep
          rw [emeas_setEdgeTypeValue, emeasLabel_setEdgeTypeValue]
          by_cases hee : e = e0
          · rw [if_pos hee] at hdep; exact absurd hdep (by decide)
          · rw [if_neg hee] at hdep; exact h e hdep
  | cons keep rest =>
      cases rest with
      | nil =>
          have hg' : enforceSingleVoltageSource g pick valO = g := by
            simp only [enforceSingleVoltageSource, hvp]
          rw [hg']; exact h
      | cons b rest' =>
          have hg' : enforceSingleVoltageSource g pick valO =
              demoteExtraVoltageSources g keep valO := by
            simp only [enforceSingleVoltageSource, hvp]
          rw [hg']
          intro e hdep
          rw [etype_demoteExtra] at hdep
          by_cases hcond : g.etype e = TYPE_VOLTAGE_SOURCE ∧ e ≠ keep
          · rw [if_pos hcond] at hdep; exact absurd hdep (by decide)
          · rw [if_neg hcond] at hdep; exact h e hdep

theorem depMeasOk_enforceInt (g : Grid) (pick : Nat) (valO : EdgeRef → Int)
    (h : depMeasOk g) : depMeasOk (enforceSingleIntegrator g pick valO) := by
  cases hvp : integratorPositions g with
  | nil =>
      cases hget : (integratorCandidateEdges g).get?
          (pick % (integratorCandidateEdges g).length) with
      | none =>
          have hg' : enforceSingleIntegrator g pick valO = g := by
            simp only [enforceSingleIntegrator, hvp, hget]
          rw [hg']; exact h
      | some e0 =>
          have hg' : enforceSingleIntegrator g pick valO =
              g.setEdgeTypeValue e0 TYPE_OPAMP_INTEGRATOR (valO e0) := by
            simp only [enforceSingleIntegrator, hvp, hget]
          rw [hg']
          intro e hdep
          rw [etype_setEdgeTypeValue] at hdep
          rw [emeas_setEdgeTypeValue, emeasLabel_setEdgeTypeValue]
          by_cases hee : e = e0
          · rw [if_pos hee] at hdep; exact absurd hdep (by decide)
          · rw [if_neg hee] at hdep; exact h e hdep
  | cons keep rest =>
      cases rest with
      | nil =>
          have hg' : enforceSingleIntegrator g pick valO = g := by
            simp only [enforceSingleIntegrator, hvp]
          rw [hg']; exact h
      | cons b rest' =>
          have hg' : enforceSingleIntegrator g pick valO =
              demoteExtraIntegrators g keep valO := by
            simp only [enforceSingleIntegrator, hvp]
          rw [hg']
          intro e hdep
          rw [etype_demoteExtraInt] at hdep
          by_cases hcond : g.etype e = TYPE_OPAMP_INTEGRATOR ∧ e ≠ keep
          · rw [if_pos hcond] at hdep; exact absurd hdep (by decide)
          · rw [if_neg hcond] at hdep; exact h e hdep

theorem depMeasOk_genGridV11 (m n : Nat) (o : SampleOracle) (pickC : EdgeRef → Nat)
    (vsPick intPick : Nat) (valCS valVS valInt : EdgeRef → Int) (integrator : Bool) :
    depMeasOk (genGridV11 m n o pickC vsPick intPick valCS valVS valInt integrator) := by
  have h4 : depMeasOk (reassign_unique_labels
      (enforceSingleVoltageSource
        (convertCurrentSources (bindControls (sampleGridV11 m n o) pickC) valCS)
        vsPick valVS)) :=
    depMeasOk_relabel _ (depMeasOk_enforceVS _ _ _
      (depMeasOk_convert _ _ (depMeasOk_bind _ _ (depMeasOk_sample m n o))))
  unfold genGridV11
  cases integrator with
  | false => simpa using h4
  | true =>
      simp only [if_true]
      exact depMeasOk_relabel _ (depMeasOk_enforceInt _ _ _ h4)

/-- Unpack a successful `_init_netlist` run into its stages. -/
theorem initNetlist_unpack {g : Grid} {bs : List Branch}
    (h : initNetlist g = some bs) :
    ∃ bs0, buildBranches g = some bs0 ∧ control_check bs0 = true ∧
      bs = regroundBranches bs0 := by
  cases hbb : buildBranches g with
  | none => rw [initNetlist, hbb] at h; exact absurd h (by simp)
  | some bs0 =>
      by_cases hcc : control_check bs0 = true
      · refine ⟨bs0, rfl, hcc, ?_⟩
        simp only [initNetlist, hbb, hcc, if_true] at h
        exact (Option.some_inj.1 h).symm
      · simp only [initNetlist, hbb, if_neg hcc] at h
        exact absurd h (by simp)

theorem reground_countP_type (bs : List Branch) (t : Nat) :
    (regroundBranches bs).countP (fun b => b.type == t) =
      bs.countP (fun b => b.type == t) := by
  cases hfind : bs.find? isVoltageSourceBranch with
  | none => rw [regroundBranches_no_vs hfind]
  | some b =>
      rw [regroundBranches_eq_map hfind,
        countP_groundRemap b.n2 bs (fun b => b.type == t) (fun x => rfl)]

theorem reground_mem_fields {bs : List Branch} {br' : Branch}
    (h : br' ∈ regroundBranches bs) :
    ∃ br ∈ bs, br'.type = br.type ∧ br'.measure = br.measure ∧
      br'.measure_label = br.measure_label ∧
      br'.control_measure_label = br.control_measure_label := by
  cases hfind : bs.find? isVoltageSourceBranch with
  | none =>
      rw [regroundBranches_no_vs hfind] at h
      exact ⟨br', h, rfl, rfl, rfl, rfl⟩
  | some b =>
      rw [regroundBranches_eq_map hfind] at h
      obtain ⟨br, hbr, rfl⟩ := List.mem_map.1 h
      exact ⟨br, hbr, rfl, rfl, rfl, rfl⟩

/-- C10: in every circuit produced by the v11 sampler pipeline, dependent
sources carry no measurement request: every dependent-source edge of the
final grid has measurement kind `none` and measurement label `-1` (the
sampler forces this before the `Circuit` is constructed, and no rewrite
pass re-measures a dependent source), so no dependent-source branch of
the assembled netlist carries a measurement. -/
theorem C10_dependent_sources_carry_no_measurement
    (m n : Nat) (o : SampleOracle) (pickC : EdgeRef → Nat) (vsPick intPick : Nat)
    (valCS valVS valInt : EdgeRef → Int) (integrator : Bool) (bs : List Branch)
    (hnl : initNetlist (genGridV11 m n o pickC vsPick intPick valCS valVS valInt
      integrator) = some bs) :
    (∀ e : EdgeRef,
      (genGridV11 m n o pickC vsPick intPick valCS valVS valInt integrator).etype e ∈
        depSourceTypes →
      (genGridV11 m n o pickC vsPick intPick valCS valVS valInt integrator).emeas e =
        MEAS_TYPE_NONE ∧
      (genGridV11 m n o pickC vsPick intPick valCS valVS valInt integrator).emeasLabel e =
        -1) ∧
    (∀ br ∈ bs, br.type ∈ depSourceTypes →
      br.measure = MEAS_TYPE_NONE ∧ br.measure_label = -1) := by
  have hok := depMeasOk_genGridV11 m n o pickC vsPick intPick valCS valVS valInt integrator
  refine ⟨hok, ?_⟩
  obtain ⟨bs0, hbb, _, rfl⟩ := initNetlist_unpack hnl
  intro br hbr hdep
  obtain ⟨br0, hbr0, hty, hms, hml, _⟩ := reground_mem_fields hbr
  obtain ⟨e, _, hety, hems, heml, _⟩ :=
    buildAux_mem_fields _ 0 bs0 hbb br0 hbr0
  rw [hty, hety] at hdep
  obtain ⟨h1, h2⟩ := hok e hdep
  refine ⟨?_, ?_⟩
  · rw [hms, hems, h1]
  · rw [hml, heml, h2]

/-! ### C1: exactly one voltage-source branch in valid circuits -/

/-- In every circuit that completes `_init_netlist`, the number of
branches of a non-`short` type equals the number of present edges of that
type. -/
theorem netlist_countP_eq_edgeCount (G : Grid) (bs : List Branch) {t : Nat}
    (ht : t ≠ TYPE_SHORT) (hnl : initNetlist G = some bs) :
    bs.countP (fun b => b.type == t) =
      (G.allEdges).countP (fun e => G.epresent e && G.etype e == t) := by
  obtain ⟨bs0, hbb, _, rfl⟩ := initNetlist_unpack hnl
  rw [reground_countP_type]
  exact buildAux_countP ht G.cells 0 bs0 hbb

/-- Relabeling does not change types or presence. -/
theorem relabel_vs_countP (g : Grid) (t : Nat) :
    (((reassign_unique_labels g).allEdges).countP
      (fun e => (reassign_unique_labels g).epresent e &&
        (reassign_unique_labels g).etype e == t)) =
    ((g.allEdges).countP (fun e => g.epresent e && g.etype e == t)) := rfl

/-- The integrator pass does not change the set of present voltage-source
edges. -/
theorem enforceInt_vs_countP (g : Grid) (pick : Nat) (valO : EdgeRef → Int) :
    (((enforceSingleIntegrator g pick valO).allEdges).countP
      (fun e => (enforceSingleIntegrator g pick valO).epresent e &&
        (enforceSingleIntegrator g pick valO).etype e == TYPE_VOLTAGE_SOURCE)) =
    ((g.allEdges).countP
      (fun e => g.epresent e && g.etype e == TYPE_VOLTAGE_SOURCE)) := by
  have hmn := mn_enforceInt g pick valO
  rw [allEdges_eq_of_mn hmn.1 hmn.2]
  refine List.countP_congr (fun e he => ?_)
  simp only [Bool.and_eq_true, beq_iff_eq, epresent_enforceInt]
  exact and_congr Iff.rfl (etype_enforceInt_vs_iff g pick valO e)

/-- C1: for every circuit of the v11 pipeline marked valid, exactly one
branch has type voltage-source — the enforcement pass promotes one
eligible present (non-`open`) edge when zero voltage sources were sampled
and demotes all but the first-in-scan-order voltage source to resistors
when more than one were sampled. -/
theorem C1_valid_circuit_has_exactly_one_voltage_source
    (m n : Nat) (o : SampleOracle) (pickC : EdgeRef → Nat) (vsPick intPick : Nat)
    (valCS valVS valInt : EdgeRef → Int) (integrator : Bool)
    (hacc : sampleAcceptedV11 (sampleGridV11 m n o) = true)
    (bs : List Branch)
    (hv : circuitValid (genGridV11 m n o pickC vsPick intPick valCS valVS valInt
      integrator) = true)
    (hb : circuitBranches (genGridV11 m n o pickC vsPick intPick valCS valVS valInt
      integrator) = bs) :
    bs.countP (fun b => b.type == TYPE_VOLTAGE_SOURCE) = 1 := by
  -- the final branch list and its voltage-source count over the edges
  simp only [circuitValid, Bool.and_eq_true] at hv
  obtain ⟨bs', hnl⟩ := Option.isSome_iff_exists.1 hv.2
  have hbs : bs = bs' := by
    rw [← hb]
    unfold circuitBranches
    rw [hnl]
    rfl
  subst hbs
  rw [netlist_countP_eq_edgeCount _ _ (by decide) hnl]
  -- the sample supplies a present dependent-source edge (promotion fuel)
  have hdep : ∃ e, e ∈ (sampleGridV11 m n o).allEdges ∧
      (sampleGridV11 m n o).etype e ∈ depSourceTypes := by
    simp only [sampleAcceptedV11, Bool.and_eq_true, decide_eq_true_eq] at hacc
    obtain ⟨⟨⟨h1, _⟩, _⟩, _⟩ := hacc
    rcases Nat.lt_or_ge 0 ((sampleGridV11 m n o).allEdges.countP (fun e =>
        (sampleGridV11 m n o).etype e == TYPE_VCCS ||
        (sampleGridV11 m n o).etype e == TYPE_VCVS)) with hpos | hz
    · obtain ⟨e, he, hpe⟩ := List.countP_pos_iff.1 hpos
      refine ⟨e, he, ?_⟩
      simp only [Bool.or_eq_true, beq_iff_eq] at hpe
      rcases hpe with h | h <;> rw [h] <;> decide
    · have hpos : 0 < (sampleGridV11 m n o).allEdges.countP (fun e =>
          (sampleGridV11 m n o).etype e == TYPE_CCCS ||
          (sampleGridV11 m n o).etype e == TYPE_CCVS) := by omega
      obtain ⟨e, he, hpe⟩ := List.countP_pos_iff.1 hpos
      refine ⟨e, he, ?_⟩
      simp only [Bool.or_eq_true, beq_iff_eq] at hpe
      rcases hpe with h | h <;> rw [h] <;> decide
  -- hypotheses of the enforcement lemma, at the converted grid
  have hpv : ∀ e ∈ (convertCurrentSources (bindControls (sampleGridV11 m n o) pickC)
      valCS).allEdges,
      (convertCurrentSources (bindControls (sampleGridV11 m n o) pickC) valCS).etype e =
        TYPE_VOLTAGE_SOURCE →
      (convertCurrentSources (bindControls (sampleGridV11 m n o) pickC) valCS).epresent e =
        true := by
    intro e _ hty
    rw [etype_convertCS] at hty
    by_cases hcs : (bindControls (sampleGridV11 m n o) pickC).etype e =
        TYPE_CURRENT_SOURCE
    · rw [if_pos hcs] at hty; exact absurd hty (by decide)
    · rw [if_neg hcs] at hty
      have hty0 : (sampleGridV11 m n o).etype e = TYPE_VOLTAGE_SOURCE := hty
      rw [sample_etype] at hty0
      have hpr : (convertCurrentSources (bindControls (sampleGridV11 m n o) pickC)
          valCS).epresent e = (sampleGridV11 m n o).epresent e := rfl
      rw [hpr, sample_present, hty0]
      decide
  have hcand : ∃ e, e ∈ (convertCurrentSources (bindControls (sampleGridV11 m n o) pickC)
      valCS).allEdges ∧
      (convertCurrentSources (bindControls (sampleGridV11 m n o) pickC) valCS).epresent e =
        true ∧
      (convertCurrentSources (bindControls (sampleGridV11 m n o) pickC) valCS).etype e ≠
        TYPE_OPEN := by
    obtain ⟨e, he, hdepty⟩ := hdep
    have hno : oracleTypeAt o e ≠ TYPE_OPEN := by
      rw [sample_etype] at hdepty
      exact dep_ne_open hdepty
    refine ⟨e, he, ?_, ?_⟩
    · have hpr : (convertCurrentSources (bindControls (sampleGridV11 m n o) pickC)
          valCS).epresent e = (sampleGridV11 m n o).epresent e := rfl
      rw [hpr, sample_present]
      simp only [Bool.not_eq_true', beq_eq_false_iff_ne]
      exact hno
    · rw [etype_convertCS]
      by_cases hcs : (bindControls (sampleGridV11 m n o) pickC).etype e =
          TYPE_CURRENT_SOURCE
      · rw [if_pos hcs]; decide
      · rw [if_neg hcs]
        have hty0 : (bindControls (sampleGridV11 m n o) pickC).etype e =
            (sampleGridV11 m n o).etype e := rfl
        rw [hty0, sample_etype]
        exact hno
  have hcount := enforce_single_vs_count
    (convertCurrentSources (bindControls (sampleGridV11 m n o) pickC) valCS)
    vsPick valVS hpv hcand
  cases integrator with
  | false =>
      have hG : genGridV11 m n o pickC vsPick intPick valCS valVS valInt false =
          reassign_unique_labels (enforceSingleVoltageSource
            (convertCurrentSources (bindControls (sampleGridV11 m n o) pickC) valCS)
            vsPick valVS) := rfl
      rw [hG, relabel_vs_countP]
      exact hcount
  | true =>
      have hG : genGridV11 m n o pickC vsPick intPick valCS valVS valInt true =
          reassign_unique_labels (enforceSingleIntegrator
            (reassign_unique_labels (enforceSingleVoltageSource
              (convertCurrentSources (bindControls (sampleGridV11 m n o) pickC) valCS)
              vsPick valVS)) intPick valInt) := rfl
      rw [hG, relabel_vs_countP, enforceInt_vs_countP, relabel_vs_countP]
      exact hcount

/-- A concrete sampling draw on a 2x2 grid: a voltage source and a CCCS
on the two vertical edges, and two resistors on the horizontal edges, one
measured in voltage (label 0) and one in current (label 0). -/
def oW : SampleOracle :=
  { tV := fun i j =>
      if i = 0 ∧ j = 0 then TYPE_VOLTAGE_SOURCE
      else if i = 0 ∧ j = 1 then TYPE_CCCS
      else TYPE_OPEN
    tH := fun i j => if j = 0 ∧ (i = 0 ∨ i = 1) then TYPE_RESISTOR else TYPE_OPEN
    mV := fun _ _ => MEAS_TYPE_NONE
    mH := fun i j =>
      if i = 0 ∧ j = 0 then MEAS_TYPE_VOLTAGE
      else if i = 1 ∧ j = 0 then MEAS_TYPE_CURRENT
      else MEAS_TYPE_NONE
    lV := fun _ _ => 0
    lH := fun _ _ => 0
    valV := fun _ _ => 5
    valH := fun _ _ => 5
    dV := fun _ _ => false
    dH := fun _ _ => false }

/-- C1 at a concrete accepted, valid 2x2 draw. -/
theorem C1_witness :
    sampleAcceptedV11 (sampleGridV11 2 2 oW) = true ∧
    circuitValid (genGridV11 2 2 oW (fun _ => 0) 0 0 (fun _ => 5) (fun _ => 5)
      (fun _ => 5) false) = true ∧
    (circuitBranches (genGridV11 2 2 oW (fun _ => 0) 0 0 (fun _ => 5) (fun _ => 5)
      (fun _ => 5) false)).countP (fun b => b.type == TYPE_VOLTAGE_SOURCE) = 1 :=
  ⟨by decide, by decide,
    C1_valid_circuit_has_exactly_one_voltage_source 2 2 oW (fun _ => 0) 0 0
      (fun _ => 5) (fun _ => 5) (fun _ => 5) false (by decide)
      (circuitBranches (genGridV11 2 2 oW (fun _ => 0) 0 0 (fun _ => 5) (fun _ => 5)
        (fun _ => 5) false))
      (by decide) rfl⟩

/-- C10 at the same concrete draw: the CCCS edge `(true, 0, 1)` of the
final grid carries measurement `none` and label `-1`. -/
theorem C10_witness :
    (genGridV11 2 2 oW (fun _ => 0) 0 0 (fun _ => 5) (fun _ => 5) (fun _ => 5)
      false).etype (true, 0, 1) ∈ depSourceTypes ∧
    ((genGridV11 2 2 oW (fun _ => 0) 0 0 (fun _ => 5) (fun _ => 5) (fun _ => 5)
      false).emeas (true, 0, 1) = MEAS_TYPE_NONE ∧
     (genGridV11 2 2 oW (fun _ => 0) 0 0 (fun _ => 5) (fun _ => 5) (fun _ => 5)
      false).emeasLabel (true, 0, 1) = -1) :=
  ⟨by decide,
    (C10_dependent_sources_carry_no_measurement 2 2 oW (fun _ => 0) 0 0 (fun _ => 5)
      (fun _ => 5) (fun _ => 5) false
      (circuitBranches (genGridV11 2 2 oW (fun _ => 0) 0 0 (fun _ => 5) (fun _ => 5)
        (fun _ => 5) false))
      (by decide)).1 (true, 0, 1) (by decide)⟩
